import Mathlib

/-!
Verification development for the GeminiCLITelebot webhook listener.

The repository is a Node.js webhook dispatcher: it classifies incoming POST
bodies (Slack form-encoded slash command vs. generic JSON webhook), decodes
base64 attachments into the working directory under count/size guardrails,
transcribes audio attachments with an external Whisper process, composes a
prompt, invokes the external `gemini` CLI under a timeout, and delivers the
result either synchronously (HTTP 200) or asynchronously (HTTP 202 plus a
POST to a callback URL).

This file is a shallow embedding of that pipeline.  External library calls
(`JSON.parse`, `JSON.stringify`, `Buffer.from(·, "base64")`, `new URL`,
`URLSearchParams`, the child processes, the filesystem) are modelled as
oracle inputs; everything the repository's own code computes is translated
directly from the source.  The main variant is `scripts/listen_attach.js`
(the JSON/attachment-handling listener, called `part_001` below); the
simpler variant `scripts/listen.js` is embedded separately where its
behaviour diverges.
-/

/-! ### Basic string helpers (JS `String` operations, re-implemented over char lists
so that they reduce definitionally). -/

theorem strExt {a b : String} (h : a.data = b.data) : a = b := by
  cases a; cases b; exact congrArg String.mk h

/-- JS `String.prototype.toLowerCase`, restricted to the ASCII range
(`Char.toLower`); the strings it is applied to in the source (content-type
and `Prefer` headers, filename extensions) are ASCII. -/
def jsToLower (s : String) : String := ⟨s.data.map Char.toLower⟩

/-- JS `String.prototype.trim` (used via `.trim()` on process output and
transcript text). -/
def strTrim (s : String) : String :=
  ⟨((s.data.dropWhile Char.isWhitespace).reverse.dropWhile Char.isWhitespace).reverse⟩

/-- JS `String.prototype.slice(0, n)` / `.take` on code points. -/
def strTake (s : String) (n : Nat) : String := ⟨s.data.take n⟩

/-- Does `pat` occur at the head of `s`? (helper for `strIncludes`). -/
def hasPrefixB : List Char → List Char → Bool
  | _, [] => true
  | [], _ :: _ => false
  | a :: as, b :: bs => a == b && hasPrefixB as bs

/-- Does `pat` occur somewhere inside `s`? (helper for `strIncludes`). -/
def hasInfixB : List Char → List Char → Bool
  | [], pat => pat.isEmpty
  | s@(_ :: rest), pat => hasPrefixB s pat || hasInfixB rest pat

/-- JS `String.prototype.includes` (used for content-type sniffing and the
`Prefer: respond-async` check) and the substring test of `RegExp.test`
without anchors. -/
def strIncludes (s pat : String) : Bool := hasInfixB s.data pat.data

/-- JS `String.prototype.endsWith` (used for the `slack.com` host check and,
after lowercasing, for the audio-extension regex). -/
def strEndsWith (s suf : String) : Bool := hasPrefixB s.data.reverse suf.data.reverse

/-- JS `Array.prototype.join("\n")` on a list of lines. -/
def joinLines : List String → String
  | [] => ""
  | [l] => l
  | l :: rest => l ++ "\n" ++ joinLines rest

/-! ### JSON values

`JSON.parse` can return any of these.  JSON numbers are modelled as integers:
the source never does arithmetic on parsed numbers, it only tests truthiness
(`0` is the only falsy number besides `NaN`) and `===`-compares against
string constants, so fractional values behave like any other nonzero number
and are not distinguished here. -/

inductive JsVal where
  | null
  | bool (b : Bool)
  | num (n : Int)
  | str (s : String)
  | arr (elems : List JsVal)
  | obj (fields : List (String × JsVal))

/-- JS truthiness of a parsed JSON value (no `undefined`: absence is
`Option.none` throughout; `NaN` cannot result from `JSON.parse`). -/
def jsTruthy : JsVal → Bool
  | .null => false
  | .bool b => b
  | .num n => n != 0
  | .str s => s != ""
  | .arr _ => true
  | .obj _ => true

/-- Property access `v.k`: `none` models JS `undefined` (also for access on
primitives, which yields `undefined` rather than throwing). -/
def jsGet : JsVal → String → Option JsVal
  | .obj fields, k => fields.lookup k
  | _, _ => none

/-- Truthiness of a possibly-`undefined` value. -/
def jsTruthyO : Option JsVal → Bool
  | some v => jsTruthy v
  | none => false

/-- JS `typeof v === "object"` (true for `null` and arrays as well). -/
def jsTypeofObject : JsVal → Bool
  | .null | .arr _ | .obj _ => true
  | _ => false

/-- JS strict equality `v === "lit"` against a string literal. -/
def jsEqStr : JsVal → String → Bool
  | .str t, s => t == s
  | _, _ => false

/-- The JS idiom `x || dflt` for a field that is then used as a string
(`att.filename || "upload.bin"`, `att.data_base64 || ""`).  A truthy
non-string value makes the subsequent string operation (`.replace`,
`Buffer.from`) throw, which the materializer's per-entry `try/catch` turns
into a skip; that is surfaced as `none`. -/
def jsStrOr : Option JsVal → String → Option String
  | some (.str s), dflt => some (if s = "" then dflt else s)
  | some .null, dflt => some dflt
  | some (.bool b), dflt => if b then none else some dflt
  | some (.num n), dflt => if n = 0 then some dflt else none
  | some (.arr _), _ => none
  | some (.obj _), _ => none
  | none, dflt => some dflt

/-- The JS idiom `v.k || dflt` for fields that are only ever concatenated
into strings (`parsed?.text || ""`, `parsed?.context || ""`,
`att.mime || "application/octet-stream"`).  We model string-valued fields;
a truthy non-string value would be coerced by JS string concatenation and
is out of scope of the claims. -/
def jsStrFieldOr (v : JsVal) (k : String) (dflt : String) : String :=
  match jsGet v k with
  | some (.str s) => if s = "" then dflt else s
  | _ => dflt

/-! ### Decimal rendering: round-trip for `Nat.repr`

The filename-uniquification loop builds candidate names with the JS template
`` `${stem}-${i}${ext}` ``; its termination on a finite directory rests on
distinct indices producing distinct names, i.e. on injectivity of the
decimal rendering.  We prove `Nat.repr` injective by evaluating the digit
string back to the number. -/

/-- Value of a decimal digit character produced by `Nat.digitChar` for
digits below 10. -/
def digitVal (c : Char) : Nat :=
  if c = '0' then 0 else if c = '1' then 1 else if c = '2' then 2
  else if c = '3' then 3 else if c = '4' then 4 else if c = '5' then 5
  else if c = '6' then 6 else if c = '7' then 7 else if c = '8' then 8 else 9

/-- Value of a big-endian decimal digit string. -/
def digitsVal (l : List Char) : Nat := l.foldl (fun a c => 10 * a + digitVal c) 0

theorem digitsVal_append_singleton (l : List Char) (c : Char) :
    digitsVal (l ++ [c]) = 10 * digitsVal l + digitVal c := by
  simp [digitsVal, List.foldl_append]

theorem digitVal_digitChar (d : Nat) (h : d < 10) :
    digitVal (Nat.digitChar d) = d := by
  interval_cases d <;> rfl

theorem toDigitsCore_append (f n : Nat) (ds : List Char) :
    Nat.toDigitsCore 10 f n ds = Nat.toDigitsCore 10 f n [] ++ ds := by
  induction f generalizing n ds with
  | zero => simp [Nat.toDigitsCore]
  | succ f ih =>
    simp only [Nat.toDigitsCore]
    by_cases h : n / 10 = 0
    · simp [h]
    · simp only [h, if_false]
      rw [ih (n / 10) (Nat.digitChar (n % 10) :: ds), ih (n / 10) [Nat.digitChar (n % 10)]]
      simp

theorem digitsVal_toDigitsCore :
    ∀ f n : Nat, n < f → digitsVal (Nat.toDigitsCore 10 f n []) = n := by
  intro f
  induction f with
  | zero => intro n h; omega
  | succ f ih =>
    intro n h
    simp only [Nat.toDigitsCore]
    by_cases h0 : n / 10 = 0
    · have hn : n < 10 := by
        by_contra hc
        have h1 : 1 ≤ n / 10 := by
          have := Nat.div_le_div_right (c := 10) (by omega : 10 ≤ n)
          simpa using this
        omega
      rw [if_pos h0, Nat.mod_eq_of_lt hn]
      calc digitsVal [Nat.digitChar n] = digitVal (Nat.digitChar n) := by simp [digitsVal]
        _ = n := digitVal_digitChar n hn
    · have hn10 : 10 ≤ n := by
        by_contra hc
        exact h0 (Nat.div_eq_of_lt (by omega))
      have hdivf : n / 10 < f := by
        have : n / 10 < n := Nat.div_lt_self (by omega) (by omega)
        omega
      rw [if_neg h0, toDigitsCore_append, digitsVal_append_singleton, ih (n / 10) hdivf,
        digitVal_digitChar (n % 10) (Nat.mod_lt n (by omega))]
      omega

theorem natRepr_inj {m n : Nat} (h : Nat.repr m = Nat.repr n) : m = n := by
  have hdata : (Nat.toDigits 10 m) = (Nat.toDigits 10 n) := by
    have := congrArg String.data h
    simpa [Nat.repr, List.asString] using this
  have hm := digitsVal_toDigitsCore (m + 1) m (Nat.lt_succ_self m)
  have hn := digitsVal_toDigitsCore (n + 1) n (Nat.lt_succ_self n)
  simp only [Nat.toDigits] at hdata
  rw [← hm, ← hn, hdata]

/-! ### Filename handling (`sanitizeFilename`, `path.extname`/`basename`, `uniquify`) -/

/-- The character class kept by `sanitizeFilename`'s regex
`/[^a-zA-Z0-9._-]/g` (everything else is replaced by `_`). -/
def allowedFilenameChar (c : Char) : Bool :=
  ('a' ≤ c && c ≤ 'z') || ('A' ≤ c && c ≤ 'Z') || ('0' ≤ c && c ≤ '9')
    || c = '.' || c = '_' || c = '-'

/-- `function sanitizeFilename(name) { return (name || "upload.bin").replace(/[^a-zA-Z0-9._-]/g, "_").slice(0, 128); }`
(the argument is a string here; `.slice(0,128)` counts UTF-16 units in JS,
code points here — they agree on the BMP). -/
def sanitizeFilename (name : String) : String :=
  let n := if name = "" then "upload.bin" else name
  strTake ⟨n.data.map (fun c => if allowedFilenameChar c then c else '_')⟩ 128

/-- `path.join(baseDir, fname)` for a slash-free `fname` (sanitized names
contain no separators, so no normalization applies). -/
def pjoin (dir fname : String) : String := dir ++ "/" ++ fname

/-- `path.basename(p)`: the part after the last `/`. -/
def pbasename (p : String) : String := ⟨(p.data.reverse.takeWhile (fun c => c != '/')).reverse⟩

/-- The pair `(path.basename(fname, ext), ext)` with
`ext := path.extname(fname)` as `uniquify` computes them: the extension is
the suffix from the last dot, empty when there is no dot or the only dot is
the leading character (`.bashrc`) or the name is `..`. -/
def splitExt (fname : String) : String × String :=
  let cs := fname.data
  let revAfter := cs.reverse.takeWhile (fun c => c != '.')
  let revRest := cs.reverse.dropWhile (fun c => c != '.')
  if cs = ['.', '.'] ∨ revRest.length ≤ 1 then (fname, "")
  else (⟨(revRest.drop 1).reverse⟩, ⟨'.' :: revAfter.reverse⟩)

theorem splitExt_data_aux (cs : List Char)
    (hlen : 1 < (cs.reverse.dropWhile (fun c => c != '.')).length) :
    ((cs.reverse.dropWhile (fun c => c != '.')).drop 1).reverse
      ++ ('.' :: (cs.reverse.takeWhile (fun c => c != '.')).reverse) = cs := by
  set rest := cs.reverse.dropWhile (fun c => c != '.') with hrest
  have hne : rest ≠ [] := by
    intro hnil; rw [hnil] at hlen; simp at hlen
  have hhead : ((fun c => c != '.') (rest.head hne)) = false :=
    List.head_dropWhile_not (fun c => c != '.') cs.reverse hne
  have hdot : rest.head hne = '.' := by simpa using hhead
  have hcons : rest = '.' :: rest.drop 1 := by
    conv_lhs => rw [← List.head_cons_tail rest hne]
    rw [hdot, List.drop_one]
  have hsplit : cs.reverse.takeWhile (fun c => c != '.') ++ rest = cs.reverse := by
    rw [hrest]; exact List.takeWhile_append_dropWhile ..
  have h2 : cs = rest.reverse ++ (cs.reverse.takeWhile (fun c => c != '.')).reverse := by
    conv_lhs => rw [← List.reverse_reverse cs, ← hsplit]
    rw [List.reverse_append]
  have h3 : rest.reverse = (rest.drop 1).reverse ++ ['.'] := by
    conv_lhs => rw [hcons]
    rw [List.reverse_cons]
  conv_rhs => rw [h2, h3]
  rw [List.append_assoc]
  rfl

theorem splitExt_append (fname : String) :
    (splitExt fname).1 ++ (splitExt fname).2 = fname := by
  obtain ⟨cs⟩ := fname
  simp only [splitExt]
  by_cases h : cs = ['.', '.'] ∨ (cs.reverse.dropWhile (fun c => c != '.')).length ≤ 1
  · rw [if_pos h]
    apply strExt
    rw [String.data_append]
    simp
  · rw [if_neg h]
    push_neg at h
    apply strExt
    rw [String.data_append]
    exact splitExt_data_aux cs (by omega)

/-- One candidate name in `uniquify`'s collision loop: `` `${stem}-${i}${ext}` ``. -/
def trialName (stem ext : String) (i : Nat) : String :=
  stem ++ "-" ++ Nat.repr i ++ ext

theorem trialName_inj (stem ext : String) {i j : Nat}
    (h : trialName stem ext i = trialName stem ext j) : i = j := by
  have hdata := congrArg String.data h
  simp only [trialName, String.data_append] at hdata
  have h1 := List.append_cancel_right hdata
  have h2 := List.append_cancel_left h1
  exact natRepr_inj (strExt h2)

theorem pjoin_trialName_inj (d stem ext : String) {i j : Nat}
    (h : pjoin d (trialName stem ext i) = pjoin d (trialName stem ext j)) : i = j := by
  apply trialName_inj stem ext
  have hdata := congrArg String.data h
  simp only [pjoin, String.data_append] at hdata
  exact strExt (List.append_cancel_left hdata)

/-- Among any `|fs| + 1` consecutive collision candidates at least one names
a path not in `fs` (pigeonhole via injectivity of `trialName`). -/
theorem exists_trial_not_mem (fs : List String) (d stem ext : String) (i : Nat) :
    ∃ k, k < fs.length + 1 ∧ pjoin d (trialName stem ext (i + k)) ∉ fs := by
  by_contra hcon
  push_neg at hcon
  set f : Nat → String := fun k => pjoin d (trialName stem ext (i + k)) with hf
  have hinj : Function.Injective f := by
    intro a b hab
    have := pjoin_trialName_inj d stem ext hab
    omega
  set L : List String := (List.range (fs.length + 1)).map f with hL
  have hnodup : L.Nodup := (List.nodup_range _).map hinj
  have hsub : L.toFinset ⊆ fs.toFinset := by
    intro x hx
    rw [List.mem_toFinset] at hx ⊢
    rw [hL, List.mem_map] at hx
    obtain ⟨k, hk, rfl⟩ := hx
    exact hcon k (List.mem_range.mp hk)
  have hcard1 : L.toFinset.card = fs.length + 1 := by
    rw [List.toFinset_card_of_nodup hnodup, hL]
    simp
  have hcard2 : fs.toFinset.card ≤ fs.length := fs.toFinset_card_le
  have := Finset.card_le_card hsub
  omega

/-- The collision loop of `uniquify`: try `` `${stem}-${i}${ext}` `` for
`i = 1, 2, …` until the joined path does not exist.  `fs` is the (finite)
set of existing paths; the fuel is an upper bound on the number of
iterations, shown sufficient below. -/
def uniquifyAux (fs : List String) (baseDir stem ext : String) : Nat → Nat → Option String
  | 0, _ => none
  | fuel + 1, i =>
    let trial := pjoin baseDir (trialName stem ext i)
    if trial ∈ fs then uniquifyAux fs baseDir stem ext fuel (i + 1) else some trial

theorem uniquifyAux_isSome (fs : List String) (d stem ext : String) :
    ∀ fuel i, (∃ k, k < fuel ∧ pjoin d (trialName stem ext (i + k)) ∉ fs) →
    (uniquifyAux fs d stem ext fuel i).isSome := by
  intro fuel
  induction fuel with
  | zero => intro i ⟨k, hk, _⟩; omega
  | succ fuel ih =>
    intro i ⟨k, hk, hmem⟩
    simp only [uniquifyAux]
    by_cases ht : pjoin d (trialName stem ext i) ∈ fs
    · rw [if_pos ht]
      apply ih (i + 1)
      have hkpos : k ≠ 0 := by
        intro h0
        rw [h0] at hmem
        simp at hmem
        exact hmem ht
      refine ⟨k - 1, by omega, ?_⟩
      have : i + 1 + (k - 1) = i + k := by omega
      rw [this]
      exact hmem
    · rw [if_neg ht]
      rfl

theorem uniquifyAux_not_mem (fs : List String) (d stem ext : String) :
    ∀ fuel i p, uniquifyAux fs d stem ext fuel i = some p → p ∉ fs := by
  intro fuel
  induction fuel with
  | zero => intro i p h; simp [uniquifyAux] at h
  | succ fuel ih =>
    intro i p h
    simp only [uniquifyAux] at h
    by_cases ht : pjoin d (trialName stem ext i) ∈ fs
    · rw [if_pos ht] at h
      exact ih (i + 1) p h
    · rw [if_neg ht] at h
      cases h
      exact ht

/-- `function uniquify(baseDir, fname)`: join and return if fresh, otherwise
append `-1`, `-2`, … before the extension until the path does not exist.
The source's `while (true)` loop always terminates on the finite directory
`fs`; here the loop runs on fuel `|fs| + 1`, which the pigeonhole lemma
shows sufficient, so the function is total exactly like the source. -/
def uniquify (fs : List String) (baseDir fname : String) : String :=
  let p := pjoin baseDir fname
  if p ∈ fs then
    (uniquifyAux fs baseDir (splitExt fname).1 (splitExt fname).2 (fs.length + 1) 1).get
      (uniquifyAux_isSome fs baseDir (splitExt fname).1 (splitExt fname).2 (fs.length + 1) 1
        (exists_trial_not_mem fs baseDir (splitExt fname).1 (splitExt fname).2 1))
  else p

theorem uniquify_not_mem (fs : List String) (baseDir fname : String) :
    uniquify fs baseDir fname ∉ fs := by
  simp only [uniquify]
  by_cases h : pjoin baseDir fname ∈ fs
  · rw [if_pos h]
    apply uniquifyAux_not_mem fs baseDir (splitExt fname).1 (splitExt fname).2 (fs.length + 1) 1
    exact (Option.some_get _).symm
  · rw [if_neg h]
    exact h

/-! ### External process behaviours (oracles)

The `gemini` and `whisper` child processes are external programs; a run's
observable outcome is an input to the model. -/

/-- Outcome of one spawn of the `gemini` CLI, as observed by
`runGeminiProcess`'s event handlers: either the process closes before the
timeout fires, or the timeout fires first (the process is then sent
SIGKILL), or the `error` event fires (spawn failure). -/
inductive GeminiBehavior where
  | closes (out err : String) (code : Int)
  | timesOut (out err : String)
  | spawnErr (out errMsg : String)

/-- What `runGeminiProcess` resolves with: `{ stdout, stderr, code }`, plus
whether the child was forcibly killed (the timeout branch's SIGKILL). -/
structure ProcResult where
  stdout : String
  stderr : String
  code : Int
  killed : Bool

/-- Outcome of one spawn of the Whisper process inside
`transcribeAudioWithWhisper`'s `try` block: the awaited `close` event
delivers an exit code (`none` models Node's `null` code after a
signal-kill, e.g. the timeout's SIGKILL — compared with `=== 0` it fails
like any nonzero code), or some step of the block throws. -/
inductive WhisperRun where
  | exits (code : Option Int)
  | throws

/-- A record of `materializeAttachmentsInCWD`'s output list:
`{ absPath, bytes, mime, filename }`. -/
structure SavedRec where
  absPath : String
  bytes : Nat
  mime : String
  filename : String
deriving DecidableEq

/-- The environment-derived configuration constants of the listener,
loaded once at startup. -/
structure Config where
  attachMaxFiles : Nat
  attachMaxBytes : Nat
  slackBlocksDefault : Bool
  systemText : String
  logHeaders : Bool
  logBody : Bool
  botUsername : String
  botIconUrl : String
  botIconEmoji : String
  cwd : String

/-- The library calls and external-world observations one request can make,
fixed per request. -/
structure Oracles where
  /-- `JSON.parse`: `none` models a thrown `SyntaxError`. -/
  parseJson : String → Option JsVal
  /-- `Buffer.from(b64, "base64")`: the decoded bytes. -/
  decode : String → List Nat
  /-- The paths existing on disk when the request's materialization starts. -/
  fsFiles : List String
  /-- `JSON.stringify(v, null, 2)` as used by `safeJson` (total there: its
  `try/catch` falls back to `String(obj)`). -/
  safeJsonStr : JsVal → String
  /-- `new URL(u).hostname`; `none` models a thrown `TypeError`. -/
  parseUrlHost : String → Option String
  /-- Outcome of spawning `gemini` on a given final prompt. -/
  gemini : String → GeminiBehavior
  /-- Whether `prepareWhisperEnvironment` located a whisper executable. -/
  whisperFound : Bool
  /-- Outcome of spawning whisper on a given audio file path. -/
  whisperRun : String → WhisperRun
  /-- `fs.readFileSync(p, "utf8")` for the transcript artifact: `some`
  exactly when `fs.existsSync(p)`. -/
  fsRead : String → Option String
  /-- `new URLSearchParams(raw).get(k)` for the form-encoded branch. -/
  bodyParam : String → Option String

/-! ### The external reasoning invoker (`runGeminiProcess` / `runGemini`) -/

/-- `runGeminiProcess`: spawn `gemini` with the given args and resolve with
`{ stdout, stderr, code }`; on timeout, SIGKILL the child and resolve with
code 124 and `" [timeout]"` appended to stderr; on spawn error resolve with
code -1 and the error message as stderr. -/
def runGeminiProcess (b : GeminiBehavior) : ProcResult :=
  match b with
  | .closes out err code => ⟨strTrim out, strTrim err, code, false⟩
  | .timesOut out err => ⟨strTrim out, strTrim err ++ " [timeout]", 124, true⟩
  | .spawnErr out errMsg => ⟨strTrim out, errMsg, -1, false⟩

/-- `composePrompt`: prepend the system preamble when one was loaded. -/
def composePrompt (cfg : Config) (taskPrompt : String) : String :=
  if cfg.systemText ≠ "" then
    joinLines ["### System", cfg.systemText, "", "### Task", taskPrompt]
  else taskPrompt

/-- `runGemini` (part_001): compose the final prompt, spawn
`gemini --yolo --prompt <finalPrompt>` once, return trimmed stdout on exit
code 0, otherwise fail with stderr (or a generic exit-code message when
stderr is empty — `res.stderr || "gemini exit " + code`). -/
def runGemini (cfg : Config) (O : Oracles) (taskPrompt : String) : Except String String :=
  let finalPrompt := composePrompt cfg taskPrompt
  let res := runGeminiProcess (O.gemini finalPrompt)
  if res.code = 0 then .ok res.stdout
  else .error (if res.stderr = "" then "gemini exit " ++ toString res.code else res.stderr)

/-! ### The transcription dispatcher (`transcribeAudioWithWhisper`) -/

/-- Whether a character matches the regex class `\w` (`[A-Za-z0-9_]`). -/
def isWordCharB (c : Char) : Bool :=
  ('a' ≤ c && c ≤ 'z') || ('A' ≤ c && c ≤ 'Z') || ('0' ≤ c && c ≤ '9') || c = '_'

/-- `filePath.replace(/\.\w+$/, ".txt")`: replace a trailing dot plus
word characters by `.txt`; when the pattern does not match, the path is
returned unchanged. -/
def replaceExtWithTxt (filePath : String) : String :=
  let cs := filePath.data
  let revTail := cs.reverse.takeWhile isWordCharB
  let rest := cs.reverse.dropWhile isWordCharB
  if revTail ≠ [] ∧ rest.head? = some '.' then ⟨(rest.drop 1).reverse⟩ ++ ".txt"
  else filePath

/-- `transcribeAudioWithWhisper(filePath)`: resolve the whisper executable
(empty transcript if none), spawn it, await the exit code, and return the
trimmed contents of the sibling `.txt` artifact only when the exit code is
0 and the artifact exists; every other outcome — nonzero or null exit code
(including the timeout's SIGKILL), missing artifact, or an exception —
returns the empty string.  (`path.join(cwd, path.basename(transcriptPath))`
equals `transcriptPath` because the regex only rewrites the basename's
tail.) -/
def transcribeAudioWithWhisper (O : Oracles) (filePath : String) : String :=
  let transcriptPath := replaceExtWithTxt filePath
  if ¬ O.whisperFound then ""
  else
    match O.whisperRun filePath with
    | .throws => ""
    | .exits code =>
      match O.fsRead transcriptPath with
      | some txt => if code = some 0 then strTrim txt else ""
      | none => ""

/-! ### The attachment materializer (`materializeAttachmentsInCWD`) -/

/-- The loop body of `materializeAttachmentsInCWD` over the (already
count-capped) attachment entries, threading the list of paths written so
far (each `fs.writeFileSync` makes its destination exist for the next
iteration's `uniquify`).  A per-entry failure (a field whose string use
throws, covered by `jsStrOr = none`) is caught and skipped; an entry with
no base64 payload or with a decoded size over the ceiling is skipped. -/
def materializeGo (cfg : Config) (O : Oracles) (baseDir : String) :
    List JsVal → List String → List SavedRec
  | [], _ => []
  | att :: rest, written =>
    match jsStrOr (jsGet att "filename") "upload.bin", jsStrOr (jsGet att "data_base64") "" with
    | some rawName, some b64 =>
      let fname := sanitizeFilename rawName
      if b64 = "" then materializeGo cfg O baseDir rest written
      else
        let buf := O.decode b64
        if buf.length > cfg.attachMaxBytes then materializeGo cfg O baseDir rest written
        else
          let dest := uniquify (O.fsFiles ++ written) baseDir fname
          let r : SavedRec :=
            ⟨dest, buf.length, jsStrFieldOr att "mime" "application/octet-stream", pbasename dest⟩
          r :: materializeGo cfg O baseDir rest (dest :: written)
    | _, _ => materializeGo cfg O baseDir rest written

/-- `materializeAttachmentsInCWD(parsed)`: take at most `ATTACH_MAX_FILES`
entries of `parsed.attachments` (empty unless that field is an array) and
decode/write each into the working directory.  `absPath` is the written
path itself (`path.resolve` of a path already joined onto the absolute
working directory). -/
def materializeAttachmentsInCWD (cfg : Config) (O : Oracles) (parsed : JsVal) : List SavedRec :=
  let atts := match jsGet parsed "attachments" with
    | some (.arr l) => l.take cfg.attachMaxFiles
    | _ => []
  materializeGo cfg O cfg.cwd atts []

/-! ### Prompt composition -/

/-- `truncate(str, max)` (string length is UTF-16 units in JS, code points
here; they agree on the BMP). -/
def truncate (str : String) (maxLen : Nat) : String :=
  if str = "" then ""
  else if str.length ≤ maxLen then str
  else strTake str maxLen ++ "\n… (" ++ Nat.repr (str.length - maxLen) ++ " more bytes truncated)"

/-- `listLocalFiles(saved)`: the human-readable manifest of materialized
files appended to prompts (never inlines file bytes). -/
def listLocalFiles (saved : List SavedRec) : String :=
  if saved.isEmpty then ""
  else
    joinLines (["### Local files (available in current working directory)", ""]
      ++ saved.map (fun f =>
        "- " ++ f.filename ++ " (" ++ Nat.repr f.bytes ++ " bytes, "
          ++ (if f.mime = "" then "application/octet-stream" else f.mime) ++ ")")
      ++ ["", "You can open/read these files directly from the working directory to answer.", ""])

/-- `buildQAPrompt(userText, context, saved)`. -/
def buildQAPrompt (userText context : String) (saved : List SavedRec) : String :=
  let l0 := ["You are a helpful assistant. Be clear and concise."]
  let l1 := if context ≠ "" then l0 ++ ["", "### Context", context] else l0
  let l2 := l1 ++ ["", "### Question", if userText = "" then "(no text)" else userText]
  let l3 := if ¬ saved.isEmpty then l2 ++ ["", listLocalFiles saved] else l2
  joinLines l3

/-- `buildSlackBlocksPrompt(userText, context, saved)`: instructs the model
to answer with a Slack Block Kit JSON object only. -/
def buildSlackBlocksPrompt (userText context : String) (saved : List SavedRec) : String :=
  let l0 := ["You are replying in Slack. Return ONLY valid JSON for Slack Block Kit. Do not include backticks or any text outside JSON.",
    "Respond as a single JSON object with this shape: \x7b\"blocks\": [ ... ]\x7d.",
    "Rules:",
    "- Use \x7b\"type\":\"section\",\"text\":\x7b\"type\":\"mrkdwn\",\"text\":\"...\"\x7d\x7d for most content.",
    "- You may use header, divider, context, fields, and actions (buttons).",
    "- Keep total blocks ≤ 50; each section text ≤ 3000 chars.",
    "- Escape characters per JSON."]
  let l1 := if context ≠ "" then l0 ++ ["", "Context:\n" ++ context] else l0
  let l2 := l1 ++ ["", "User message:\n" ++ (if userText = "" then "(no text)" else userText)]
  let l3 := if ¬ saved.isEmpty then l2 ++ ["", listLocalFiles saved] else l2
  joinLines l3

/-- The key test of `redactHeaders`'s regex
`/authorization|token|cookie|set-cookie|api[-_]key/i` (an unanchored,
case-insensitive substring search). -/
def isSensitiveHeaderKey (k : String) : Bool :=
  let l := jsToLower k
  strIncludes l "authorization" || strIncludes l "token" || strIncludes l "cookie"
    || strIncludes l "set-cookie" || strIncludes l "api-key" || strIncludes l "api_key"

/-- `redactHeaders(h)`. -/
def redactHeaders (headers : List (String × String)) : List (String × String) :=
  headers.map (fun kv => if isSensitiveHeaderKey kv.1 then (kv.1, "[redacted]") else kv)

/-- The Node headers object as a JSON value (string-valued fields). -/
def headersToJs (headers : List (String × String)) : JsVal :=
  .obj (headers.map (fun kv => (kv.1, .str kv.2)))

/-- `{ ...obj, raw: undefined }` as seen by `JSON.stringify`: for an object,
the `raw` field disappears; spreading a primitive yields an empty object.
(Spreading an array or a string would yield index-keyed fields; the ops
prompt's exact rendering of such exotic bodies is not claim-relevant.) -/
def jsStripRaw : JsVal → JsVal
  | .obj fields => .obj (fields.filter (fun kv => kv.1 ≠ "raw"))
  | _ => .obj []

/-- `buildOpsPrompt(obj, headers, saved, userTextForOps)` (part_001). -/
def buildOpsPrompt (cfg : Config) (O : Oracles) (obj : JsVal)
    (headers : List (String × String)) (saved : List SavedRec) (userTextForOps : String) : String :=
  let l0 := ["You are an assistant receiving a webhook. Summarize the event and suggest next steps.",
    "",
    "### Headers",
    "```json",
    O.safeJsonStr (headersToJs (if cfg.logHeaders then headers else redactHeaders headers)),
    "```",
    "",
    "### Body",
    "```json",
    O.safeJsonStr (if cfg.logBody then obj else jsStripRaw obj),
    "```"]
  let l1 := if ¬ saved.isEmpty then l0 ++ ["", listLocalFiles saved] else l0
  let l2 := if userTextForOps ≠ "" then l1 ++ ["### Request", userTextForOps, ""] else l1
  joinLines l2

/-! ### Structured-reply extraction (`extractBlocks`) -/

/-- `extractBlocks(jsonText)`: parse; if the result is truthy and its
`blocks` property is an array, return it; on a parse error or any other
shape, return null. -/
def extractBlocks (parse : String → Option JsVal) (jsonText : String) : Option (List JsVal) :=
  match parse jsonText with
  | some v =>
    if jsTruthy v then
      match jsGet v "blocks" with
      | some (.arr bs) => some bs
      | _ => none
    else none
  | none => none

/-! ### Audio detection and request-text enrichment (part_001 handler loop) -/

/-- The audio-extension test `/\.(m4a|mp3|wav|ogg|flac|aiff|wma|aac)$/i`. -/
def isAudioFile (fname : String) : Bool :=
  let l := jsToLower fname
  [".m4a", ".mp3", ".wav", ".ogg", ".flac", ".aiff", ".wma", ".aac"].any
    (fun e => strEndsWith l e)

/-- One iteration of the handler's audio loop: transcribe an audio file and
append either a transcript section or an untranscribable-file warning to the
request text; leave non-audio files alone. -/
def appendAudioSection (O : Oracles) (text : String) (f : SavedRec) : String :=
  if isAudioFile f.filename then
    let transcript := transcribeAudioWithWhisper O f.absPath
    if transcript ≠ "" then
      text ++ "\n\n### Audio Transcript from " ++ f.filename ++ ":\n" ++ transcript
    else
      text ++ "\n\n⚠️ Unable to transcribe audio file " ++ f.filename ++ "."
  else text

/-- The handler's audio loop over the materialized files. -/
def enrichRequestText (O : Oracles) (saved : List SavedRec) (text0 : String) : String :=
  saved.foldl (appendAudioSection O) text0

/-- The audio loop instrumented with the list of file paths handed to the
transcription dispatcher, in call order (used to state that transcription is
attempted exactly once per audio file). -/
def enrichStep (O : Oracles) (st : String × List String) (f : SavedRec) : String × List String :=
  if isAudioFile f.filename then
    let transcript := transcribeAudioWithWhisper O f.absPath
    (if transcript ≠ "" then
      st.1 ++ "\n\n### Audio Transcript from " ++ f.filename ++ ":\n" ++ transcript
    else
      st.1 ++ "\n\n⚠️ Unable to transcribe audio file " ++ f.filename ++ ".",
     st.2 ++ [f.absPath])
  else st

/-- Instrumented audio loop. -/
def enrichRequestTextLog (O : Oracles) (saved : List SavedRec) (text0 : String) :
    String × List String :=
  saved.foldl (enrichStep O) (text0, [])

/-- The audio files of a request, in order: one transcription attempt each. -/
def transcriptionAttempts (saved : List SavedRec) : List String :=
  (saved.filter (fun f => isAudioFile f.filename)).map (fun f => f.absPath)

/-! ### Mode resolution, prompt choice and `doWork` (part_001 handler) -/

/-- `const mode = (parsed && parsed.mode) || url.searchParams.get("mode") || "";`
— a truthy `mode` field of the body wins, else the query parameter, else the
empty string. -/
def resolveMode (parsed : JsVal) (queryMode : Option String) : JsVal :=
  let m := if jsTruthy parsed then jsGet parsed "mode" else none
  match m with
  | some mv => if jsTruthy mv then mv else .str (queryMode.getD "")
  | none => .str (queryMode.getD "")

/-- The structured-reply condition
`mode === "qa_blocks" || (mode === "qa" && SLACK_BLOCKS_DEFAULT)` used both
for prompt choice and for block extraction. -/
def isBlocksMode (cfg : Config) (mode : JsVal) : Bool :=
  jsEqStr mode "qa_blocks" || (jsEqStr mode "qa" && cfg.slackBlocksDefault)

/-- The handler's prompt dispatch (part_001 lines 576-584): structured-reply
shape, else question-answering shape on `mode === "qa"`, else the
operational-event shape. -/
def choosePrompt (cfg : Config) (O : Oracles) (parsed : JsVal)
    (headers : List (String × String)) (saved : List SavedRec)
    (mode : JsVal) (requestText : String) : String :=
  if isBlocksMode cfg mode then
    buildSlackBlocksPrompt requestText (jsStrFieldOr parsed "context" "") saved
  else if jsEqStr mode "qa" then
    buildQAPrompt requestText (jsStrFieldOr parsed "context" "") saved
  else
    buildOpsPrompt cfg O parsed headers saved requestText

/-- The result object `doWork` resolves with: `{ ok, reply?, blocks? }`. -/
structure DoResult where
  ok : Bool
  reply : Option String
  blocks : Option (List JsVal)

/-- `doWork`: run gemini on the prompt; on success extract blocks when a
structured-reply mode is in effect and deliver `{ok:true, blocks}` or
`{ok:true, reply}`; on failure deliver `{ok:false}` with a formatted
failure message carrying remediation hints — never an unhandled failure. -/
def doWork (cfg : Config) (O : Oracles) (mode : JsVal) (prompt : String) : DoResult :=
  match runGemini cfg O prompt with
  | .ok reply =>
    let blocks := if isBlocksMode cfg mode then extractBlocks O.parseJson reply else none
    match blocks with
    | some bs => ⟨true, none, some bs⟩
    | none => ⟨true, some reply, none⟩
  | .error msg =>
    ⟨false,
     some ("❌ Processing failed.\n\nDetails:\n" ++ truncate msg 2000 ++ "\n\n"
       ++ "Tips:\n• Ensure the local files exist in the working directory (names listed above)\n"
       ++ "• Ensure your Gemini CLI/tools can read local files when asked\n"),
     none⟩

/-! ### Response bodies and the delivery trace -/

/-- `{"response_type":"ephemeral","text":"Working on it…"}`. -/
def workingBody : JsVal :=
  .obj [("response_type", .str "ephemeral"), ("text", .str "Working on it…")]

/-- `{"ok":false,"reply":"❌ Invalid JSON payload."}`. -/
def invalidJsonBody : JsVal :=
  .obj [("ok", .bool false), ("reply", .str "❌ Invalid JSON payload.")]

/-- `{"ok":true,"status":"accepted","note":"Processing asynchronously"}`. -/
def ackBody : JsVal :=
  .obj [("ok", .bool true), ("status", .str "accepted"), ("note", .str "Processing asynchronously")]

/-- `{ ok: result.ok, reply: result.reply || null, blocks: result.blocks || null }`
(an empty reply string is falsy and becomes null; an empty blocks array is
truthy and stays). -/
def syncBody (r : DoResult) : JsVal :=
  .obj [("ok", .bool r.ok),
    ("reply", match r.reply with
      | some s => if s = "" then .null else .str s
      | none => .null),
    ("blocks", match r.blocks with
      | some bs => .arr bs
      | none => .null)]

/-- The externally observable delivery steps of one request, in order: write
an HTTP response on the original connection, or POST a payload to a URL. -/
inductive DeliveryAction where
  | respond (status : Nat) (body : JsVal)
  | post (url : String) (payload : JsVal)

/-- `postJSON(url, payload)`: fire-and-forget POST.  `new URL(url)` throws
synchronously for an unparsable (or null) URL inside an async callback, so
nothing is sent in that case. -/
def postJSONAction (urlHost : String → Option String) (url : Option String)
    (payload : JsVal) : List DeliveryAction :=
  match url with
  | some u =>
    match urlHost u with
    | some _ => [DeliveryAction.post u payload]
    | none => []
  | none => []

/-- Payload of `postSlack(responseUrl, text, visibility, options)`: base
fields, then `icon_url` or `icon_emoji`, then the passthrough options in the
source's fixed key order (`some none` would be a key explicitly set to
`undefined`, skipped like an absent one by the `!== undefined` test). -/
def postSlackPayload (cfg : Config) (text visibility : String)
    (options : List (String × Option JsVal)) : JsVal :=
  let base := [("response_type", JsVal.str visibility), ("text", JsVal.str text),
    ("username", JsVal.str cfg.botUsername)]
  let icon := if cfg.botIconUrl ≠ "" then [("icon_url", JsVal.str cfg.botIconUrl)]
    else if cfg.botIconEmoji ≠ "" then [("icon_emoji", JsVal.str cfg.botIconEmoji)] else []
  let pass := ["thread_ts", "blocks", "attachments", "replace_original", "delete_original",
    "unfurl_links", "unfurl_media"].filterMap
    (fun k => match options.lookup k with
      | some (some v) => some (k, v)
      | _ => none)
  .obj (base ++ icon ++ pass)

/-- `postSlack` delivers its payload through `postJSON`. -/
def postSlackActions (cfg : Config) (urlHost : String → Option String)
    (url : Option String) (text visibility : String)
    (options : List (String × Option JsVal)) : List DeliveryAction :=
  postJSONAction urlHost url (postSlackPayload cfg text visibility options)

/-! ### The POST /event handler (part_001)

`handleEvent` models the `req.on("end")` callback of the `POST /event`
route: classify by content type, parse, materialize attachments, enrich
with transcripts, choose a prompt, invoke gemini, and deliver the result
synchronously or asynchronously.  Its value is the ordered list of
externally observable delivery steps. -/

/-- An incoming `POST /event` request: the (Node-lowercased) header map,
the accumulated body, and the URL's `async`/`mode` query parameters
(`url.searchParams.get`, `none` = absent). -/
structure Req where
  headers : List (String × String)
  raw : String
  queryAsync : Option String
  queryMode : Option String

/-- `(req.headers["content-type"] || "").toLowerCase()`. -/
def reqContentType (req : Req) : String :=
  jsToLower ((req.headers.lookup "content-type").getD "")

/-- `(req.headers["prefer"] || "").toLowerCase()`. -/
def reqPrefer (req : Req) : String :=
  jsToLower ((req.headers.lookup "prefer").getD "")

/-- `url.searchParams.get("async") === "1" || prefer.includes("respond-async")`. -/
def forceAsyncOf (req : Req) : Bool :=
  req.queryAsync == some "1" || strIncludes (reqPrefer req) "respond-async"

/-- Body classification of the generic branch:
`parsed = ct.includes("application/json") ? JSON.parse(raw || "{}") : { raw }`
— `none` models the `JSON.parse` throw. -/
def classifyBody (parse : String → Option JsVal) (req : Req) : Option JsVal :=
  if strIncludes (reqContentType req) "application/json"
  then parse (if req.raw = "" then "\x7b\x7d" else req.raw)
  else some (.obj [("raw", .str req.raw)])

/-- `const responseUrl = (parsed && typeof parsed === "object" && parsed.response_url) || (parsed && parsed.slack && parsed.slack.response_url) || null;`
— `some` exactly when a truthy value was found. -/
def resolveResponseUrl (parsed : JsVal) : Option JsVal :=
  let x1 := if jsTruthy parsed && jsTypeofObject parsed then jsGet parsed "response_url" else none
  if jsTruthyO x1 then x1
  else
    let x2 := if jsTruthy parsed then
        match jsGet parsed "slack" with
        | some sv => if jsTruthy sv then jsGet sv "response_url" else none
        | none => none
      else none
    if jsTruthyO x2 then x2 else none

/-- Word-boundary test used by `matchesWordAt`. -/
def isWordBoundaryOpp (c : Option Char) : Bool :=
  match c with
  | none => true
  | some c => !isWordCharB c

/-- Does the word `w` match at the current position (with `prev` the
character before it)?  Helper for the `\bblocks\b` test. -/
def matchesWordAt (w s : List Char) (prev : Option Char) : Bool :=
  isWordBoundaryOpp prev && hasPrefixB s w &&
    (match (s.drop w.length).head? with
     | none => true
     | some c => !isWordCharB c)

/-- Scan all positions for a word-boundary match. -/
def hasWordAux (w : List Char) (prev : Option Char) : List Char → Bool
  | [] => matchesWordAt w [] prev
  | c :: rest => matchesWordAt w (c :: rest) prev || hasWordAux w (some c) rest

/-- `/\bblocks\b/.test(text)` (the slash command's Block Kit opt-in). -/
def testWordBlocks (text : String) : Bool := hasWordAux "blocks".data none text.data

/-- The Slack slash-command branch (form-encoded body): immediately
acknowledge with the ephemeral "Working on it…" reply, then run gemini and
post the result (blocks or text) to the command's `response_url`. -/
def handleFormBranch (cfg : Config) (O : Oracles) : List DeliveryAction :=
  let text := (O.bodyParam "text").getD ""
  let user := (O.bodyParam "user_name").getD ""
  let channel := (O.bodyParam "channel_name").getD ""
  let responseUrl := O.bodyParam "response_url"
  let threadTs := O.bodyParam "thread_ts"
  let wantsBlocks := testWordBlocks text || cfg.slackBlocksDefault
  let threadOpt : Option JsVal := match threadTs with
    | some s => if s = "" then none else some (.str s)
    | none => none
  let base := "Slack user @" ++ user ++ " in #" ++ channel ++ " asked:\n\n" ++ text
  let prompt := if wantsBlocks then buildSlackBlocksPrompt base "" [] else base
  DeliveryAction.respond 200 workingBody ::
    (match runGemini cfg O prompt with
     | .ok reply =>
       match (if wantsBlocks then extractBlocks O.parseJson reply else none) with
       | some bs =>
         postSlackActions cfg O.parseUrlHost responseUrl "" "in_channel"
           [("thread_ts", threadOpt), ("blocks", some (.arr bs)),
            ("unfurl_links", some (.bool false)), ("unfurl_media", some (.bool false))]
       | none =>
         postSlackActions cfg O.parseUrlHost responseUrl reply "in_channel"
           [("thread_ts", threadOpt),
            ("unfurl_links", some (.bool false)), ("unfurl_media", some (.bool false))]
     | .error msg =>
       postSlackActions cfg O.parseUrlHost responseUrl ("❌ Error: " ++ msg) "ephemeral"
         [("thread_ts", threadOpt)])

/-- The materialized files of a JSON request. -/
def jsonSaved (cfg : Config) (O : Oracles) (parsed : JsVal) : List SavedRec :=
  materializeAttachmentsInCWD cfg O parsed

/-- `parsed?.text || ""` enriched by the audio loop. -/
def jsonRequestText (cfg : Config) (O : Oracles) (parsed : JsVal) : String :=
  enrichRequestText O (jsonSaved cfg O parsed) (jsStrFieldOr parsed "text" "")

/-- The task prompt of a JSON request (built after attachments are known). -/
def jsonPrompt (cfg : Config) (O : Oracles) (req : Req) (parsed : JsVal) : String :=
  choosePrompt cfg O parsed req.headers (jsonSaved cfg O parsed)
    (resolveMode parsed req.queryMode) (jsonRequestText cfg O parsed)

/-- The `doWork` result of a JSON request. -/
def jsonResult (cfg : Config) (O : Oracles) (req : Req) (parsed : JsVal) : DoResult :=
  doWork cfg O (resolveMode parsed req.queryMode) (jsonPrompt cfg O req parsed)

/-- The async branch's delivery to the callback URL: Slack hosts get the
platform message schema, other hosts the generic `{ok, reply, blocks}`
object; an unparsable or non-string callback URL makes both the `try`'s and
the `catch`'s `new URL` throw, so nothing is sent. -/
def asyncCallbackActions (cfg : Config) (O : Oracles) (responseUrl : Option JsVal)
    (r : DoResult) : List DeliveryAction :=
  match responseUrl with
  | some (.str u) =>
    (match O.parseUrlHost u with
     | some host =>
       if strEndsWith host "slack.com" then
         postSlackActions cfg O.parseUrlHost (some u)
           (match r.blocks with
            | some _ => ""
            | none => r.reply.getD "")
           (if r.ok then "in_channel" else "ephemeral")
           [("blocks", r.blocks.map JsVal.arr),
            ("unfurl_links", some (.bool false)), ("unfurl_media", some (.bool false))]
       else postJSONAction O.parseUrlHost (some u) (syncBody r)
     | none => [])
  | some _ => []
  | none => []

/-- The full `POST /event` handler of part_001. -/
def handleEvent (cfg : Config) (O : Oracles) (req : Req) : List DeliveryAction :=
  let ct := reqContentType req
  if strIncludes ct "application/x-www-form-urlencoded" then
    handleFormBranch cfg O
  else
    match classifyBody O.parseJson req with
    | none => [DeliveryAction.respond 200 invalidJsonBody]
    | some parsed =>
      let responseUrl := resolveResponseUrl parsed
      let result := jsonResult cfg O req parsed
      if responseUrl.isSome || forceAsyncOf req then
        DeliveryAction.respond 202 ackBody :: asyncCallbackActions cfg O responseUrl result
      else
        [DeliveryAction.respond 200 (syncBody result)]

/-! ### The simpler listener variant (`scripts/listen.js`)

It has no attachments, no modes, no system preamble and no timeout; its
JSON-parse failure silently wraps the body as `{ raw }`, and its
synchronous failure path answers HTTP 500 — both differ from part_001. -/

/-- One spawn of `gemini` in listen.js (no timeout, no error handler): the
`close` event's streams and exit code. -/
structure GeminiRunL where
  out : String
  err : String
  code : Int

/-- The external-world inputs of one listen.js request. -/
structure OraclesListen where
  parseJson : String → Option JsVal
  parseUrlHost : String → Option String
  gemini : String → GeminiRunL
  bodyParam : String → Option String
  safeJsonStr : JsVal → String

/-- `runGemini` of listen.js: trimmed stdout on exit code 0, otherwise
reject with raw stderr (or `` `exit ${code}` `` when stderr is empty). -/
def runGeminiListen (O : OraclesListen) (prompt : String) : Except String String :=
  let r := O.gemini prompt
  if r.code = 0 then .ok (strTrim r.out)
  else .error (if r.err = "" then "exit " ++ toString r.code else r.err)

/-- `buildOpsPrompt(obj, headers)` of listen.js (headers are not redacted
there). -/
def buildOpsPromptListen (O : OraclesListen) (obj : JsVal)
    (headers : List (String × String)) : String :=
  joinLines ["You are an ops agent receiving a webhook.",
    "Summarize the event and propose next actions.",
    "",
    "### Headers",
    "```json",
    O.safeJsonStr (headersToJs headers),
    "```",
    "",
    "### Body",
    "```json",
    O.safeJsonStr obj,
    "```"]

/-- The generic-JSON part of the listen.js handler, after body
classification produced `parsed`. -/
def listenJsonBranch (cfg : Config) (O : OraclesListen) (req : Req)
    (parsed : JsVal) : List DeliveryAction :=
  let responseUrl := resolveResponseUrl parsed
  let prompt := buildOpsPromptListen O parsed req.headers
  if responseUrl.isSome || forceAsyncOf req then
    DeliveryAction.respond 202 ackBody ::
      (match runGeminiListen O prompt with
       | .ok reply =>
         (match responseUrl with
          | some (.str u) =>
            (match O.parseUrlHost u with
             | some host =>
               if strEndsWith host "slack.com" then
                 postSlackActions cfg O.parseUrlHost (some u) reply "in_channel"
                   [("unfurl_links", some (.bool false)), ("unfurl_media", some (.bool false))]
               else [DeliveryAction.post u (.obj [("ok", .bool true), ("reply", .str reply)])]
             | none => [])
          | some _ => []
          | none => [])
       | .error msg =>
         (match responseUrl with
          | some (.str u) =>
            (match O.parseUrlHost u with
             | some host =>
               if strEndsWith host "slack.com" then
                 postSlackActions cfg O.parseUrlHost (some u) ("❌ Error: " ++ msg) "ephemeral" []
               else [DeliveryAction.post u (.obj [("ok", .bool false), ("error", .str msg)])]
             | none => [])
          | some _ => []
          | none => []))
  else
    match runGeminiListen O prompt with
    | .ok reply =>
      [DeliveryAction.respond 200 (.obj [("ok", .bool true), ("reply", .str reply)])]
    | .error msg =>
      [DeliveryAction.respond 500 (.obj [("ok", .bool false), ("error", .str msg)])]

/-- The full `POST /event` handler of listen.js.  Note the JSON-parse
`catch` wraps the unparsed body as `{ raw }` and continues — it never sends
an invalid-JSON reply. -/
def handleEventListen (cfg : Config) (O : OraclesListen) (req : Req) : List DeliveryAction :=
  let ct := reqContentType req
  if strIncludes ct "application/x-www-form-urlencoded" then
    let text := (O.bodyParam "text").getD ""
    let user := (O.bodyParam "user_name").getD ""
    let channel := (O.bodyParam "channel_name").getD ""
    let responseUrl := O.bodyParam "response_url"
    let threadTs := O.bodyParam "thread_ts"
    let threadOpt : Option JsVal := match threadTs with
      | some s => if s = "" then none else some (.str s)
      | none => none
    DeliveryAction.respond 200 workingBody ::
      (match runGeminiListen O ("Slack user @" ++ user ++ " in #" ++ channel ++ " asked:\n\n" ++ text) with
       | .ok reply =>
         postSlackActions cfg O.parseUrlHost responseUrl reply "in_channel"
           [("thread_ts", threadOpt),
            ("unfurl_links", some (.bool false)), ("unfurl_media", some (.bool false))]
       | .error msg =>
         postSlackActions cfg O.parseUrlHost responseUrl ("❌ Error: " ++ msg) "ephemeral"
           [("thread_ts", threadOpt)])
  else
    let parsed := match classifyBody O.parseJson req with
      | some v => v
      | none => .obj [("raw", .str req.raw)]
    listenJsonBranch cfg O req parsed

/-! ### Helper lemmas: substring containment -/

theorem hasPrefixB_nil (s : List Char) : hasPrefixB s [] = true := by
  cases s <;> rfl

theorem hasInfixB_nil (s : List Char) : hasInfixB s [] = true := by
  induction s with
  | nil => rfl
  | cons c rest ih => simp [hasInfixB, hasPrefixB_nil]

theorem hasPrefixB_append_self (pat rest : List Char) : hasPrefixB (pat ++ rest) pat = true := by
  induction pat with
  | nil => exact hasPrefixB_nil rest
  | cons c cs ih => simp [hasPrefixB, ih]

theorem hasPrefixB_extend {s pat : List Char} (t : List Char) (h : hasPrefixB s pat = true) :
    hasPrefixB (s ++ t) pat = true := by
  induction pat generalizing s with
  | nil => exact hasPrefixB_nil _
  | cons c cs ih =>
    cases s with
    | nil => simp [hasPrefixB] at h
    | cons a as =>
      simp only [List.cons_append, hasPrefixB, Bool.and_eq_true] at h ⊢
      exact ⟨h.1, ih h.2⟩

theorem hasInfixB_extend {s pat : List Char} (t : List Char) (h : hasInfixB s pat = true) :
    hasInfixB (s ++ t) pat = true := by
  induction s with
  | nil =>
    simp only [hasInfixB, List.isEmpty_iff] at h
    subst h
    exact hasInfixB_nil _
  | cons c rest ih =>
    simp only [hasInfixB, Bool.or_eq_true] at h
    simp only [List.cons_append, hasInfixB, Bool.or_eq_true]
    rcases h with h | h
    · exact Or.inl (hasPrefixB_extend t h)
    · exact Or.inr (ih h)

theorem hasInfixB_of_suffix (pre pat : List Char) : hasInfixB (pre ++ pat) pat = true := by
  induction pre with
  | nil =>
    cases pat with
    | nil => rfl
    | cons c cs =>
      have h := hasPrefixB_append_self (c :: cs) []
      simp only [List.append_nil] at h
      simp [hasInfixB, h]
  | cons c pr ih =>
    simp only [List.cons_append, hasInfixB, Bool.or_eq_true]
    exact Or.inr ih

theorem strIncludes_append_right (t chunk : String) : strIncludes (t ++ chunk) chunk = true := by
  simp only [strIncludes, String.data_append]
  exact hasInfixB_of_suffix t.data chunk.data

theorem strIncludes_extend (s pat t : String) (h : strIncludes s pat = true) :
    strIncludes (s ++ t) pat = true := by
  simp only [strIncludes, String.data_append]
  exact hasInfixB_extend t.data h

/-! ### Helper lemmas: the materializer's guardrails -/

theorem materializeGo_length (cfg : Config) (O : Oracles) (d : String) :
    ∀ atts written, (materializeGo cfg O d atts written).length ≤ atts.length := by
  intro atts
  induction atts with
  | nil => intro written; simp [materializeGo]
  | cons att rest ih =>
    intro written
    show (materializeGo cfg O d (att :: rest) written).length ≤ rest.length + 1
    simp only [materializeGo]
    split
    · split
      · exact Nat.le_succ_of_le (ih written)
      · split
        · exact Nat.le_succ_of_le (ih written)
        · simpa using Nat.succ_le_succ (ih _)
    · exact Nat.le_succ_of_le (ih written)

theorem materializeGo_bytes (cfg : Config) (O : Oracles) (d : String) :
    ∀ atts written r, r ∈ materializeGo cfg O d atts written → r.bytes ≤ cfg.attachMaxBytes := by
  intro atts
  induction atts with
  | nil => intro written r h; simp [materializeGo] at h
  | cons att rest ih =>
    intro written r h
    simp only [materializeGo] at h
    split at h
    · split at h
      · exact ih written r h
      · split at h
        · exact ih written r h
        · rename_i hsize
          rcases List.mem_cons.mp h with rfl | h
          · simpa using Nat.le_of_not_lt hsize
          · exact ih _ r h
    · exact ih written r h

theorem materializeGo_skip_oversized (cfg : Config) (O : Oracles) (d : String)
    (att : JsVal) (rest : List JsVal) (written : List String) (nm b64 : String)
    (h1 : jsStrOr (jsGet att "filename") "upload.bin" = some nm)
    (h2 : jsStrOr (jsGet att "data_base64") "" = some b64)
    (h3 : b64 ≠ "") (h4 : (O.decode b64).length > cfg.attachMaxBytes) :
    materializeGo cfg O d (att :: rest) written = materializeGo cfg O d rest written := by
  simp only [materializeGo, h1, h2]
  rw [if_neg h3, if_pos h4]

/-! ### Helper lemmas: the filename collision scenario -/

theorem uniquify_empty (baseDir fname : String) :
    uniquify [] baseDir fname = pjoin baseDir fname := by
  simp [uniquify]

theorem trialName_one_length (fname : String) :
    (trialName (splitExt fname).1 (splitExt fname).2 1).length = fname.length + 2 := by
  have hf : (splitExt fname).1.length + (splitExt fname).2.length = fname.length := by
    have h := congrArg String.length (splitExt_append fname)
    rw [String.length_append] at h
    exact h
  show ((splitExt fname).1 ++ "-" ++ Nat.repr 1 ++ (splitExt fname).2).length = fname.length + 2
  rw [String.length_append, String.length_append, String.length_append]
  have h1 : (Nat.repr 1).length = 1 := rfl
  have h2 : ("-" : String).length = 1 := rfl
  omega

theorem trialName_one_ne (baseDir fname : String) :
    pjoin baseDir (trialName (splitExt fname).1 (splitExt fname).2 1) ≠ pjoin baseDir fname := by
  intro h
  have hlen := congrArg String.length h
  simp only [pjoin, String.length_append, trialName_one_length] at hlen
  omega

theorem uniquify_single_collision (baseDir fname : String) :
    uniquify [pjoin baseDir fname] baseDir fname
      = pjoin baseDir (trialName (splitExt fname).1 (splitExt fname).2 1) := by
  simp only [uniquify]
  rw [if_pos (by simp : pjoin baseDir fname ∈ [pjoin baseDir fname])]
  have haux : uniquifyAux [pjoin baseDir fname] baseDir (splitExt fname).1 (splitExt fname).2
      ([pjoin baseDir fname].length + 1) 1
      = some (pjoin baseDir (trialName (splitExt fname).1 (splitExt fname).2 1)) := by
    simp only [List.length_cons, List.length_nil, uniquifyAux]
    rw [if_neg (by simp [trialName_one_ne baseDir fname])]
  simp only [haux, Option.get_some]

/-! ### Claim theorems -/

/-- C3: for every parsed event, the materializer's output list has length at
most the configured maximum attachment count, every record in it has decoded
byte length at most the configured per-file ceiling, and an entry whose
decoded payload exceeds the ceiling is skipped without aborting the rest of
the batch. -/
theorem attachment_guardrails (cfg : Config) (O : Oracles) (parsed : JsVal) :
    (materializeAttachmentsInCWD cfg O parsed).length ≤ cfg.attachMaxFiles
    ∧ (∀ r ∈ materializeAttachmentsInCWD cfg O parsed, r.bytes ≤ cfg.attachMaxBytes)
    ∧ (∀ (att : JsVal) (rest : List JsVal) (written : List String) (nm b64 : String),
        jsStrOr (jsGet att "filename") "upload.bin" = some nm →
        jsStrOr (jsGet att "data_base64") "" = some b64 →
        b64 ≠ "" → (O.decode b64).length > cfg.attachMaxBytes →
        materializeGo cfg O cfg.cwd (att :: rest) written
          = materializeGo cfg O cfg.cwd rest written) := by
  refine ⟨?_, ?_, ?_⟩
  · simp only [materializeAttachmentsInCWD]
    apply le_trans (materializeGo_length cfg O cfg.cwd _ [])
    cases h : jsGet parsed "attachments" with
    | none => simp
    | some v =>
      cases v <;> simp [List.length_take]
  · intro r hr
    exact materializeGo_bytes cfg O cfg.cwd _ [] r hr
  · intro att rest written nm b64 h1 h2 h3 h4
    exact materializeGo_skip_oversized cfg O cfg.cwd att rest written nm b64 h1 h2 h3 h4

/-- Witness fixtures: a small concrete configuration and oracle world. -/
def wCfg : Config :=
  ⟨6, 2, false, "", false, false, "Webhook Assistant", "", ":robot_face:", "/work"⟩

def wO : Oracles where
  parseJson := fun _ => none
  decode := fun _ => [1, 2, 3]
  fsFiles := []
  safeJsonStr := fun _ => "null"
  parseUrlHost := fun _ => none
  gemini := fun _ => .closes "  hi " "" 0
  whisperFound := false
  whisperRun := fun _ => .throws
  fsRead := fun _ => none
  bodyParam := fun _ => none

def wParsed : JsVal :=
  .obj [("attachments", .arr [.obj [("filename", .str "f.bin"), ("data_base64", .str "AAAA")]])]

def wAtt : JsVal := .obj [("filename", .str "f.bin"), ("data_base64", .str "AAAA")]

theorem attachment_guardrails_witness :
    (materializeAttachmentsInCWD wCfg wO wParsed).length ≤ wCfg.attachMaxFiles
    ∧ materializeGo wCfg wO wCfg.cwd [wAtt] [] = materializeGo wCfg wO wCfg.cwd [] [] := by
  exact ⟨(attachment_guardrails wCfg wO wParsed).1,
    (attachment_guardrails wCfg wO wParsed).2.2 wAtt [] [] "f.bin" "AAAA" rfl rfl
      (by decide) (by decide)⟩

/-! ### Helper lemmas: the character set of every written filename

`materializeGo` writes `pbasename (uniquify fs baseDir (sanitizeFilename nm))`.
The sanitized name uses only the allowed characters; a collision trial adds
`-` and decimal digits, both allowed; and `path.basename` of the joined path
recovers the slash-free name — so every written filename stays inside the
restricted character set (though not inside the 128-character cap, see the
C4 counterexample). -/

theorem sanitizeFilename_length (name : String) : (sanitizeFilename name).length ≤ 128 := by
  simp only [sanitizeFilename, strTake, String.length, List.length_take]
  exact Nat.min_le_left ..

theorem sanitizeFilename_chars (name : String) :
    ∀ c ∈ (sanitizeFilename name).data, allowedFilenameChar c = true := by
  intro c hc
  simp only [sanitizeFilename, strTake] at hc
  have hc2 := List.mem_of_mem_take hc
  obtain ⟨x, hx, rfl⟩ := List.mem_map.mp hc2
  cases hx2 : allowedFilenameChar x with
  | true => simp [hx2]
  | false => simp [hx2]; rfl

theorem allowed_digitChar (d : Nat) (h : d < 10) :
    allowedFilenameChar (Nat.digitChar d) = true := by
  interval_cases d <;> decide

theorem allowed_toDigitsCore :
    ∀ (f n : Nat) (ds : List Char), (∀ c ∈ ds, allowedFilenameChar c = true) →
    ∀ c ∈ Nat.toDigitsCore 10 f n ds, allowedFilenameChar c = true := by
  intro f
  induction f with
  | zero =>
    intro n ds h c hc
    simp only [Nat.toDigitsCore] at hc
    exact h c hc
  | succ f ih =>
    intro n ds h c hc
    simp only [Nat.toDigitsCore] at hc
    by_cases h0 : n / 10 = 0
    · rw [if_pos h0] at hc
      rcases List.mem_cons.mp hc with rfl | hc
      · exact allowed_digitChar (n % 10) (Nat.mod_lt n (by omega))
      · exact h c hc
    · rw [if_neg h0] at hc
      refine ih (n / 10) (Nat.digitChar (n % 10) :: ds) ?_ c hc
      intro e he
      rcases List.mem_cons.mp he with rfl | he
      · exact allowed_digitChar (n % 10) (Nat.mod_lt n (by omega))
      · exact h e he

theorem allowed_repr (i : Nat) : ∀ c ∈ (Nat.repr i).data, allowedFilenameChar c = true := by
  intro c hc
  exact allowed_toDigitsCore (i + 1) i [] (by simp) c hc

theorem splitExt_chars (fname : String) (c : Char) :
    (c ∈ (splitExt fname).1.data → c ∈ fname.data)
    ∧ (c ∈ (splitExt fname).2.data → c ∈ fname.data) := by
  have h := congrArg String.data (splitExt_append fname)
  rw [String.data_append] at h
  constructor
  · intro hc
    rw [← h]
    exact List.mem_append.mpr (Or.inl hc)
  · intro hc
    rw [← h]
    exact List.mem_append.mpr (Or.inr hc)

theorem trialName_chars (stem ext : String) (i : Nat)
    (hstem : ∀ c ∈ stem.data, allowedFilenameChar c = true)
    (hext : ∀ c ∈ ext.data, allowedFilenameChar c = true) :
    ∀ c ∈ (trialName stem ext i).data, allowedFilenameChar c = true := by
  intro c hc
  simp only [trialName, String.data_append] at hc
  rcases List.mem_append.mp hc with hc | hc
  · rcases List.mem_append.mp hc with hc | hc
    · rcases List.mem_append.mp hc with hc | hc
      · exact hstem c hc
      · have hdash : c = '-' := by simpa using hc
        subst hdash
        decide
    · exact allowed_repr i c hc
  · exact hext c hc

theorem uniquifyAux_form (fs : List String) (d stem ext : String) :
    ∀ fuel i p, uniquifyAux fs d stem ext fuel i = some p →
    ∃ j, p = pjoin d (trialName stem ext j) := by
  intro fuel
  induction fuel with
  | zero => intro i p h; simp [uniquifyAux] at h
  | succ fuel ih =>
    intro i p h
    simp only [uniquifyAux] at h
    by_cases ht : pjoin d (trialName stem ext i) ∈ fs
    · rw [if_pos ht] at h
      exact ih (i + 1) p h
    · rw [if_neg ht] at h
      cases h
      exact ⟨i, rfl⟩

theorem uniquify_form (fs : List String) (d fname : String) :
    uniquify fs d fname = pjoin d fname
    ∨ ∃ j, uniquify fs d fname
        = pjoin d (trialName (splitExt fname).1 (splitExt fname).2 j) := by
  simp only [uniquify]
  by_cases h : pjoin d fname ∈ fs
  · rw [if_pos h]
    right
    exact uniquifyAux_form fs d (splitExt fname).1 (splitExt fname).2 (fs.length + 1) 1 _
      (Option.some_get _).symm
  · rw [if_neg h]
    left
    rfl

theorem takeWhile_all_append (p : Char → Bool) :
    ∀ (l1 l2 : List Char), (∀ c ∈ l1, p c = true) →
    (l1 ++ l2).takeWhile p = l1 ++ l2.takeWhile p := by
  intro l1
  induction l1 with
  | nil => intro l2 h; rfl
  | cons a l ih =>
    intro l2 h
    have ha := h a (List.mem_cons_self a l)
    simp only [List.cons_append, List.takeWhile_cons, ha, if_true]
    exact congrArg (a :: ·) (ih l2 (fun c hc => h c (List.mem_cons_of_mem a hc)))

theorem pbasename_pjoin (d name : String) (h : ∀ c ∈ name.data, c ≠ '/') :
    pbasename (pjoin d name) = name := by
  apply strExt
  show ((pjoin d name).data.reverse.takeWhile (fun c => c != '/')).reverse = name.data
  have hd : (pjoin d name).data = (d.data ++ ("/" : String).data) ++ name.data := by
    simp only [pjoin, String.data_append]
  rw [hd, List.reverse_append]
  have hrev : (d.data ++ ("/" : String).data).reverse = '/' :: d.data.reverse := by
    rw [List.reverse_append]
    rfl
  rw [hrev]
  have hall : ∀ c ∈ name.data.reverse, (fun c => c != '/') c = true := by
    intro c hc
    have := h c (List.mem_reverse.mp hc)
    simpa using this
  rw [takeWhile_all_append _ name.data.reverse ('/' :: d.data.reverse) hall]
  have hstop : ('/' :: d.data.reverse).takeWhile (fun c => c != '/') = [] := by
    simp [List.takeWhile_cons]
  rw [hstop, List.append_nil, List.reverse_reverse]

theorem uniquify_name_chars (fs : List String) (d rawName : String) :
    ∀ c ∈ (pbasename (uniquify fs d (sanitizeFilename rawName))).data,
      allowedFilenameChar c = true := by
  have hsan := sanitizeFilename_chars rawName
  have hnoslash : ∀ c ∈ (sanitizeFilename rawName).data, c ≠ '/' := by
    intro c hc heq
    subst heq
    have := hsan '/' hc
    exact absurd this (by decide)
  rcases uniquify_form fs d (sanitizeFilename rawName) with h | ⟨j, h⟩
  · rw [h, pbasename_pjoin d _ hnoslash]
    exact hsan
  · rw [h]
    have hstem : ∀ c ∈ (splitExt (sanitizeFilename rawName)).1.data,
        allowedFilenameChar c = true :=
      fun c hc => hsan c ((splitExt_chars (sanitizeFilename rawName) c).1 hc)
    have hext : ∀ c ∈ (splitExt (sanitizeFilename rawName)).2.data,
        allowedFilenameChar c = true :=
      fun c hc => hsan c ((splitExt_chars (sanitizeFilename rawName) c).2 hc)
    have htrial := trialName_chars (splitExt (sanitizeFilename rawName)).1
      (splitExt (sanitizeFilename rawName)).2 j hstem hext
    have hns2 : ∀ c ∈ (trialName (splitExt (sanitizeFilename rawName)).1
        (splitExt (sanitizeFilename rawName)).2 j).data, c ≠ '/' := by
      intro c hc heq
      subst heq
      have := htrial '/' hc
      exact absurd this (by decide)
    rw [pbasename_pjoin d _ hns2]
    exact htrial

theorem materializeGo_filename_chars (cfg : Config) (O : Oracles) (d : String) :
    ∀ atts written r, r ∈ materializeGo cfg O d atts written →
    ∀ c ∈ r.filename.data, allowedFilenameChar c = true := by
  intro atts
  induction atts with
  | nil => intro written r h; simp [materializeGo] at h
  | cons att rest ih =>
    intro written r h
    simp only [materializeGo] at h
    split at h
    · split at h
      · exact ih written r h
      · split at h
        · exact ih written r h
        · rcases List.mem_cons.mp h with rfl | h
          · exact uniquify_name_chars (O.fsFiles ++ written) d _
          · exact ih _ r h
    · exact ih written r h

/-- C4 (amended): every filename written to the working directory by the
attachment materializer contains only characters from alphanumerics, `.`,
`_`, `-`, and is unique within the directory (never an existing path); the
sanitized filename is at most 128 characters, and two identical names in
one request yield two distinct paths, the second carrying the numeric
suffix `-1` before the extension — but that collision-resolved name is
longer than the sanitized one by the suffix (`fname.length + 2` for the
first collision), so a written filename can exceed 128 characters. -/
theorem filename_sanitize_unique_amended :
    (∀ name : String, (sanitizeFilename name).length ≤ 128
       ∧ ∀ c ∈ (sanitizeFilename name).data, allowedFilenameChar c = true)
    ∧ (∀ (cfg : Config) (O : Oracles) (parsed : JsVal),
        ∀ r ∈ materializeAttachmentsInCWD cfg O parsed,
        ∀ c ∈ r.filename.data, allowedFilenameChar c = true)
    ∧ (∀ (fs : List String) (baseDir fname : String), uniquify fs baseDir fname ∉ fs)
    ∧ (∀ baseDir fname : String,
        uniquify [] baseDir fname = pjoin baseDir fname
        ∧ uniquify [pjoin baseDir fname] baseDir fname
            = pjoin baseDir (trialName (splitExt fname).1 (splitExt fname).2 1)
        ∧ uniquify [pjoin baseDir fname] baseDir fname ≠ uniquify [] baseDir fname)
    ∧ (∀ fname : String,
        (trialName (splitExt fname).1 (splitExt fname).2 1).length = fname.length + 2) := by
  refine ⟨fun name => ⟨sanitizeFilename_length name, sanitizeFilename_chars name⟩,
    ?_, uniquify_not_mem, ?_, trialName_one_length⟩
  · intro cfg O parsed r hr
    exact materializeGo_filename_chars cfg O cfg.cwd _ [] r hr
  · intro baseDir fname
    refine ⟨uniquify_empty baseDir fname, uniquify_single_collision baseDir fname, ?_⟩
    rw [uniquify_single_collision, uniquify_empty]
    exact trialName_one_ne baseDir fname

def c4Name : String := ⟨List.replicate 124 'a'⟩ ++ ".txt"

def c4Att : JsVal := .obj [("filename", .str c4Name), ("data_base64", .str "AAAA")]

def c4Parsed : JsVal := .obj [("attachments", .arr [c4Att, c4Att])]

def c4O : Oracles := { wO with decode := fun _ => [1] }

set_option maxRecDepth 8000 in
/-- C4 counterexample: submitting the same 128-character (fully sanitized)
filename twice in one request makes the materializer write the second file
under the collision name with the `-1` suffix — 130 characters, exceeding
the claimed 128-character bound for filenames written to the working
directory. -/
theorem written_filename_over_128 :
    (materializeAttachmentsInCWD wCfg c4O c4Parsed).map (fun r => r.filename)
      = [c4Name, (⟨List.replicate 124 'a'⟩ : String) ++ "-1" ++ ".txt"]
    ∧ c4Name.length = 128
    ∧ ((⟨List.replicate 124 'a'⟩ : String) ++ "-1" ++ ".txt").length = 130
    ∧ ¬ (((⟨List.replicate 124 'a'⟩ : String) ++ "-1" ++ ".txt").length ≤ 128) :=
  ⟨rfl, by decide, by decide, by decide⟩

theorem filename_sanitize_unique_witness :
    ((sanitizeFilename "päck?.bin").length ≤ 128
      ∧ ∀ c ∈ (sanitizeFilename "päck?.bin").data, allowedFilenameChar c = true)
    ∧ (∀ r ∈ materializeAttachmentsInCWD wCfg c4O c4Parsed,
        ∀ c ∈ r.filename.data, allowedFilenameChar c = true)
    ∧ uniquify ["/work/a.txt"] "/work" "a.txt" ∉ ["/work/a.txt"]
    ∧ uniquify [] "/work" "a.txt" = "/work/a.txt"
    ∧ uniquify [pjoin "/work" "a.txt"] "/work" "a.txt"
        = pjoin "/work" (trialName (splitExt "a.txt").1 (splitExt "a.txt").2 1)
    ∧ (trialName (splitExt "a.txt").1 (splitExt "a.txt").2 1).length = "a.txt".length + 2 := by
  refine ⟨filename_sanitize_unique_amended.1 "päck?.bin",
    filename_sanitize_unique_amended.2.1 wCfg c4O c4Parsed,
    filename_sanitize_unique_amended.2.2.1 ["/work/a.txt"] "/work" "a.txt",
    ?_,
    filename_sanitize_unique_amended.2.2.2.1 "/work" "a.txt" |>.2.1,
    filename_sanitize_unique_amended.2.2.2.2 "a.txt"⟩
  exact filename_sanitize_unique_amended.2.2.2.1 "/work" "a.txt" |>.1

/-- C5: a `gemini` invocation returns the trimmed standard output when the
child closes with exit code zero; on a nonzero code it fails with the
captured (trimmed) standard error, or the generic exit-code message when
that is empty; when the timeout fires the child is forcibly killed and the
invocation fails (the `" [timeout]"`-tagged stderr, code 124).  The invoker
consumes exactly one spawn outcome — there is no retry path. -/
theorem gemini_invoker_spec (cfg : Config) (O : Oracles) (prompt : String) :
    (∀ out err, O.gemini (composePrompt cfg prompt) = .closes out err 0 →
       runGemini cfg O prompt = .ok (strTrim out))
    ∧ (∀ out err code, O.gemini (composePrompt cfg prompt) = .closes out err code → code ≠ 0 →
       runGemini cfg O prompt
         = .error (if strTrim err = "" then "gemini exit " ++ toString code else strTrim err))
    ∧ (∀ out err, O.gemini (composePrompt cfg prompt) = .timesOut out err →
       (runGeminiProcess (O.gemini (composePrompt cfg prompt))).killed = true
       ∧ runGemini cfg O prompt = .error (strTrim err ++ " [timeout]")) := by
  refine ⟨?_, ?_, ?_⟩
  · intro out err h
    simp [runGemini, h, runGeminiProcess]
  · intro out err code h hne
    simp only [runGemini, h, runGeminiProcess]
    rw [if_neg hne]
  · intro out err h
    refine ⟨by simp [runGeminiProcess, h], ?_⟩
    have hne : strTrim err ++ " [timeout]" ≠ "" := by
      intro hbad
      have hlen := congrArg String.length hbad
      rw [String.length_append] at hlen
      have h10 : (" [timeout]" : String).length = 10 := rfl
      rw [h10] at hlen
      have h0 : ("" : String).length = 0 := rfl
      omega
    simp only [runGemini, h, runGeminiProcess]
    rw [if_neg (by decide : ¬ (124 : Int) = 0), if_neg hne]

def wOFail : Oracles := { wO with gemini := fun _ => .closes "" "boom" 2 }

def wOTime : Oracles := { wO with gemini := fun _ => .timesOut "" "late" }

theorem gemini_invoker_spec_witness :
    runGemini wCfg wO "p" = .ok (strTrim "  hi ")
    ∧ runGemini wCfg wOFail "p"
        = .error (if strTrim "boom" = "" then "gemini exit " ++ toString (2 : Int)
            else strTrim "boom")
    ∧ (runGeminiProcess (wOTime.gemini (composePrompt wCfg "p"))).killed = true
    ∧ runGemini wCfg wOTime "p" = .error (strTrim "late" ++ " [timeout]") := by
  refine ⟨(gemini_invoker_spec wCfg wO "p").1 "  hi " "" rfl,
    (gemini_invoker_spec wCfg wOFail "p").2.1 "" "boom" 2 rfl (by decide), ?_, ?_⟩
  · exact ((gemini_invoker_spec wCfg wOTime "p").2.2 "" "late" rfl).1
  · exact ((gemini_invoker_spec wCfg wOTime "p").2.2 "" "late" rfl).2

/-- C6: the transcription dispatcher returns a non-empty transcript only
when the engine was found, exited with code zero, and the sibling text
artifact (the input path with its extension replaced by `.txt`) exists —
in which case the artifact's trimmed contents are returned; when the
executable is missing, the run throws, the exit code is not zero (including
the null code after a timeout kill), or the artifact is missing, it returns
the empty string rather than raising. -/
theorem whisper_dispatcher_spec (O : Oracles) (filePath : String) :
    (transcribeAudioWithWhisper O filePath ≠ "" →
       O.whisperFound = true
       ∧ ∃ txt, O.whisperRun filePath = .exits (some 0)
           ∧ O.fsRead (replaceExtWithTxt filePath) = some txt
           ∧ transcribeAudioWithWhisper O filePath = strTrim txt)
    ∧ (O.whisperFound = false → transcribeAudioWithWhisper O filePath = "")
    ∧ (O.whisperRun filePath = .throws → transcribeAudioWithWhisper O filePath = "")
    ∧ (∀ code, O.whisperRun filePath = .exits code → code ≠ some 0 →
         transcribeAudioWithWhisper O filePath = "")
    ∧ (∀ code, O.whisperRun filePath = .exits code →
         O.fsRead (replaceExtWithTxt filePath) = none →
         transcribeAudioWithWhisper O filePath = "") := by
  refine ⟨?_, ?_, ?_, ?_, ?_⟩
  · intro hne
    cases hf : O.whisperFound with
    | false => simp [transcribeAudioWithWhisper, hf] at hne
    | true =>
      refine ⟨rfl, ?_⟩
      cases hr : O.whisperRun filePath with
      | throws => simp [transcribeAudioWithWhisper, hf, hr] at hne
      | exits code =>
        cases hread : O.fsRead (replaceExtWithTxt filePath) with
        | none => simp [transcribeAudioWithWhisper, hf, hr, hread] at hne
        | some txt =>
          by_cases hc : code = some 0
          · subst hc
            exact ⟨txt, rfl, rfl, by simp [transcribeAudioWithWhisper, hf, hr, hread]⟩
          · simp [transcribeAudioWithWhisper, hf, hr, hread, hc] at hne
  · intro hf
    simp [transcribeAudioWithWhisper, hf]
  · intro hr
    cases hf : O.whisperFound <;> simp [transcribeAudioWithWhisper, hf, hr]
  · intro code hr hc
    cases hf : O.whisperFound with
    | false => simp [transcribeAudioWithWhisper, hf]
    | true =>
      cases hread : O.fsRead (replaceExtWithTxt filePath) <;>
        simp [transcribeAudioWithWhisper, hf, hr, hread, hc]
  · intro code hr hread
    cases hf : O.whisperFound <;> simp [transcribeAudioWithWhisper, hf, hr, hread]

def wOWhisper : Oracles := { wO with
  whisperFound := true
  whisperRun := fun _ => .exits (some 0)
  fsRead := fun _ => some " a transcript " }

def wOWhisperKilled : Oracles := { wO with
  whisperFound := true
  whisperRun := fun _ => .exits none
  fsRead := fun _ => some " a transcript " }

theorem whisper_dispatcher_spec_witness :
    (wOWhisper.whisperFound = true
      ∧ ∃ txt, wOWhisper.whisperRun "clip.mp3" = .exits (some 0)
          ∧ wOWhisper.fsRead (replaceExtWithTxt "clip.mp3") = some txt
          ∧ transcribeAudioWithWhisper wOWhisper "clip.mp3" = strTrim txt)
    ∧ transcribeAudioWithWhisper wO "clip.mp3" = ""
    ∧ transcribeAudioWithWhisper wOWhisperKilled "clip.mp3" = "" := by
  refine ⟨(whisper_dispatcher_spec wOWhisper "clip.mp3").1 (by decide), ?_, ?_⟩
  · exact (whisper_dispatcher_spec wO "clip.mp3").2.1 rfl
  · exact (whisper_dispatcher_spec wOWhisperKilled "clip.mp3").2.2.2.1 none rfl (by decide)

/-! ### Helper lemmas: audio enrichment -/

theorem appendAudioSection_mono (O : Oracles) (pat : String) (f : SavedRec) (t : String)
    (h : strIncludes t pat = true) : strIncludes (appendAudioSection O t f) pat = true := by
  simp only [appendAudioSection]
  split
  · split
    · exact strIncludes_extend _ _ _ (strIncludes_extend _ _ _
        (strIncludes_extend _ _ _ (strIncludes_extend _ _ _ h)))
    · exact strIncludes_extend _ _ _ (strIncludes_extend _ _ _ (strIncludes_extend _ _ _ h))
  · exact h

theorem enrich_foldl_mono (O : Oracles) (pat : String) :
    ∀ (l : List SavedRec) (t : String), strIncludes t pat = true →
    strIncludes (List.foldl (appendAudioSection O) t l) pat = true := by
  intro l
  induction l with
  | nil => intro t h; exact h
  | cons f rest ih => intro t h; exact ih _ (appendAudioSection_mono O pat f t h)

theorem strAppend4 (t a b c d : String) : t ++ a ++ b ++ c ++ d = t ++ (a ++ b ++ c ++ d) := by
  apply strExt
  simp [String.data_append, List.append_assoc]

theorem strAppend3 (t a b c : String) : t ++ a ++ b ++ c = t ++ (a ++ b ++ c) := by
  apply strExt
  simp [String.data_append, List.append_assoc]

theorem appendAudioSection_contains (O : Oracles) (f : SavedRec) (t : String)
    (haud : isAudioFile f.filename = true) :
    (transcribeAudioWithWhisper O f.absPath ≠ "" →
      strIncludes (appendAudioSection O t f)
        ("\n\n### Audio Transcript from " ++ f.filename ++ ":\n"
          ++ transcribeAudioWithWhisper O f.absPath) = true)
    ∧ (transcribeAudioWithWhisper O f.absPath = "" →
      strIncludes (appendAudioSection O t f)
        ("\n\n⚠️ Unable to transcribe audio file " ++ f.filename ++ ".") = true) := by
  have hstep : appendAudioSection O t f
      = if transcribeAudioWithWhisper O f.absPath ≠ "" then
          (t ++ "\n\n### Audio Transcript from " ++ f.filename ++ ":\n"
            ++ transcribeAudioWithWhisper O f.absPath)
        else (t ++ "\n\n⚠️ Unable to transcribe audio file " ++ f.filename ++ ".") := by
    simp [appendAudioSection, haud]
  constructor
  · intro hne
    rw [hstep, if_pos hne, strAppend4]
    exact strIncludes_append_right _ _
  · intro heq
    rw [hstep, if_neg (by simp [heq]), strAppend3]
    exact strIncludes_append_right _ _

theorem enrich_contains (O : Oracles) :
    ∀ (saved : List SavedRec) (t0 : String) (f : SavedRec),
    f ∈ saved → isAudioFile f.filename = true →
    (transcribeAudioWithWhisper O f.absPath ≠ "" →
      strIncludes (enrichRequestText O saved t0)
        ("\n\n### Audio Transcript from " ++ f.filename ++ ":\n"
          ++ transcribeAudioWithWhisper O f.absPath) = true)
    ∧ (transcribeAudioWithWhisper O f.absPath = "" →
      strIncludes (enrichRequestText O saved t0)
        ("\n\n⚠️ Unable to transcribe audio file " ++ f.filename ++ ".") = true) := by
  intro saved
  induction saved with
  | nil => intro t0 f hf; simp at hf
  | cons g rest ih =>
    intro t0 f hf haud
    rcases List.mem_cons.mp hf with rfl | hf
    · constructor
      · intro hne
        show strIncludes (List.foldl (appendAudioSection O) (appendAudioSection O t0 f) rest) _ = true
        exact enrich_foldl_mono O _ rest _ ((appendAudioSection_contains O f t0 haud).1 hne)
      · intro heq
        show strIncludes (List.foldl (appendAudioSection O) (appendAudioSection O t0 f) rest) _ = true
        exact enrich_foldl_mono O _ rest _ ((appendAudioSection_contains O f t0 haud).2 heq)
    · exact ih (appendAudioSection O t0 g) f hf haud

theorem enrichStep_snd (O : Oracles) (st : String × List String) (f : SavedRec) :
    (enrichStep O st f).2 = if isAudioFile f.filename then st.2 ++ [f.absPath] else st.2 := by
  simp only [enrichStep]
  split <;> rfl

theorem enrichStep_fst (O : Oracles) (st : String × List String) (f : SavedRec) :
    (enrichStep O st f).1 = appendAudioSection O st.1 f := by
  simp only [enrichStep, appendAudioSection]
  split <;> rfl

theorem enrichLog_calls (O : Oracles) :
    ∀ (saved : List SavedRec) (st : String × List String),
    (List.foldl (enrichStep O) st saved).2 = st.2 ++ transcriptionAttempts saved := by
  intro saved
  induction saved with
  | nil => intro st; simp [transcriptionAttempts]
  | cons f rest ih =>
    intro st
    show (List.foldl (enrichStep O) (enrichStep O st f) rest).2 = _
    rw [ih (enrichStep O st f), enrichStep_snd]
    cases haud : isAudioFile f.filename with
    | true => simp [haud, transcriptionAttempts, List.filter_cons]
    | false => simp [haud, transcriptionAttempts, List.filter_cons]

theorem enrichLog_text (O : Oracles) :
    ∀ (saved : List SavedRec) (st : String × List String),
    (List.foldl (enrichStep O) st saved).1 = List.foldl (appendAudioSection O) st.1 saved := by
  intro saved
  induction saved with
  | nil => intro st; rfl
  | cons f rest ih =>
    intro st
    show (List.foldl (enrichStep O) (enrichStep O st f) rest).1 = _
    rw [ih (enrichStep O st f), enrichStep_fst]
    rfl

/-! ### Helper lemmas: handler unfoldings -/

theorem handleEvent_json (cfg : Config) (O : Oracles) (req : Req) (parsed : JsVal)
    (hform : strIncludes (reqContentType req) "application/x-www-form-urlencoded" = false)
    (hclass : classifyBody O.parseJson req = some parsed) :
    handleEvent cfg O req =
      (if (resolveResponseUrl parsed).isSome || forceAsyncOf req then
        DeliveryAction.respond 202 ackBody
          :: asyncCallbackActions cfg O (resolveResponseUrl parsed) (jsonResult cfg O req parsed)
      else [DeliveryAction.respond 200 (syncBody (jsonResult cfg O req parsed))]) := by
  simp only [handleEvent, hform, hclass, Bool.false_eq_true, if_false]

theorem handleEvent_badjson (cfg : Config) (O : Oracles) (req : Req)
    (hform : strIncludes (reqContentType req) "application/x-www-form-urlencoded" = false)
    (hclass : classifyBody O.parseJson req = none) :
    handleEvent cfg O req = [DeliveryAction.respond 200 invalidJsonBody] := by
  simp only [handleEvent, hform, hclass, Bool.false_eq_true, if_false]

theorem handleEventListen_json (cfg : Config) (O : OraclesListen) (req : Req) (parsed : JsVal)
    (hform : strIncludes (reqContentType req) "application/x-www-form-urlencoded" = false)
    (hclass : classifyBody O.parseJson req = some parsed) :
    handleEventListen cfg O req = listenJsonBranch cfg O req parsed := by
  simp only [handleEventListen, hform, hclass, Bool.false_eq_true, if_false]

theorem handleEventListen_badjson (cfg : Config) (O : OraclesListen) (req : Req)
    (hform : strIncludes (reqContentType req) "application/x-www-form-urlencoded" = false)
    (hclass : classifyBody O.parseJson req = none) :
    handleEventListen cfg O req
      = listenJsonBranch cfg O req (.obj [("raw", .str req.raw)]) := by
  simp only [handleEventListen, hform, hclass, Bool.false_eq_true, if_false]

theorem listenJsonBranch_sync (cfg : Config) (O : OraclesListen) (req : Req) (parsed : JsVal)
    (hNoCb : resolveResponseUrl parsed = none) (hNoAsync : forceAsyncOf req = false) :
    listenJsonBranch cfg O req parsed =
      (match runGeminiListen O (buildOpsPromptListen O parsed req.headers) with
       | .ok reply =>
         [DeliveryAction.respond 200 (.obj [("ok", .bool true), ("reply", .str reply)])]
       | .error msg =>
         [DeliveryAction.respond 500 (.obj [("ok", .bool false), ("error", .str msg)])]) := by
  simp only [listenJsonBranch, hNoCb, hNoAsync, Option.isSome_none, Bool.or_self,
    Bool.false_eq_true, if_false]

/-- C7: for every materialized file whose filename ends (case-insensitively)
in a recognized audio extension, transcription is attempted exactly once
(the instrumented loop's call list is exactly the audio files, in order,
and it computes the same text as the handler's loop); a non-empty
transcript appends the `### Audio Transcript from <filename>:` section
containing the transcript, an empty one appends the `Unable to transcribe`
warning naming the file; and the pipeline still delivers a response in
either case. -/
theorem audio_enrichment_spec (O : Oracles) (saved : List SavedRec) (t0 : String) :
    (enrichRequestTextLog O saved t0).2 = transcriptionAttempts saved
    ∧ (enrichRequestTextLog O saved t0).1 = enrichRequestText O saved t0
    ∧ (∀ f ∈ saved, isAudioFile f.filename = true →
        (transcribeAudioWithWhisper O f.absPath ≠ "" →
          strIncludes (enrichRequestText O saved t0)
            ("\n\n### Audio Transcript from " ++ f.filename ++ ":\n"
              ++ transcribeAudioWithWhisper O f.absPath) = true)
        ∧ (transcribeAudioWithWhisper O f.absPath = "" →
          strIncludes (enrichRequestText O saved t0)
            ("\n\n⚠️ Unable to transcribe audio file " ++ f.filename ++ ".") = true))
    ∧ (∀ (cfg : Config) (O' : Oracles) (req : Req) (parsed : JsVal),
        strIncludes (reqContentType req) "application/x-www-form-urlencoded" = false →
        classifyBody O'.parseJson req = some parsed →
        ∃ status body rest,
          handleEvent cfg O' req = DeliveryAction.respond status body :: rest) := by
  refine ⟨?_, ?_, ?_, ?_⟩
  · have h := enrichLog_calls O saved (t0, [])
    simpa [enrichRequestTextLog] using h
  · have h := enrichLog_text O saved (t0, [])
    simpa [enrichRequestTextLog, enrichRequestText] using h
  · intro f hf haud
    exact enrich_contains O saved t0 f hf haud
  · intro cfg O' req parsed hform hclass
    rw [handleEvent_json cfg O' req parsed hform hclass]
    cases h2 : ((resolveResponseUrl parsed).isSome || forceAsyncOf req) with
    | true => exact ⟨202, ackBody, _, rfl⟩
    | false => exact ⟨200, syncBody (jsonResult cfg O' req parsed), [], rfl⟩

def wFile : SavedRec := ⟨"/work/clip.mp3", 3, "audio/mpeg", "clip.mp3"⟩

theorem audio_enrichment_spec_witness :
    (enrichRequestTextLog wOWhisper [wFile] "hi").2 = transcriptionAttempts [wFile]
    ∧ strIncludes (enrichRequestText wOWhisper [wFile] "hi")
        ("\n\n### Audio Transcript from " ++ wFile.filename ++ ":\n"
          ++ transcribeAudioWithWhisper wOWhisper wFile.absPath) = true
    ∧ strIncludes (enrichRequestText wO [wFile] "hi")
        ("\n\n⚠️ Unable to transcribe audio file " ++ wFile.filename ++ ".") = true := by
  refine ⟨(audio_enrichment_spec wOWhisper [wFile] "hi").1, ?_, ?_⟩
  · exact ((audio_enrichment_spec wOWhisper [wFile] "hi").2.2.1 wFile (by decide)
      (by decide)).1 (by decide)
  · exact ((audio_enrichment_spec wO [wFile] "hi").2.2.1 wFile (by decide)
      (by decide)).2 (by decide)

/-- C8: the engine's output is delivered as blocks only when it parses as a
truthy JSON value whose `blocks` field is an array; when parsing fails (or
the field is absent or not an array) the extractor returns null and
`doWork` delivers the raw output as a plain-text `{ok:true, reply}` —
never an unhandled failure. -/
theorem blocks_fallback_spec :
    (∀ (parse : String → Option JsVal) (s : String) (bs : List JsVal),
       extractBlocks parse s = some bs →
       ∃ v, parse s = some v ∧ jsGet v "blocks" = some (.arr bs))
    ∧ (∀ (parse : String → Option JsVal) (s : String),
       parse s = none → extractBlocks parse s = none)
    ∧ (∀ (cfg : Config) (O : Oracles) (mode : JsVal) (prompt reply : String),
         isBlocksMode cfg mode = true → runGemini cfg O prompt = .ok reply →
         (extractBlocks O.parseJson reply = none →
            doWork cfg O mode prompt = ⟨true, some reply, none⟩)
         ∧ (∀ bs, extractBlocks O.parseJson reply = some bs →
            doWork cfg O mode prompt = ⟨true, none, some bs⟩)) := by
  refine ⟨?_, ?_, ?_⟩
  · intro parse s bs h
    cases hp : parse s with
    | none => simp [extractBlocks, hp] at h
    | some v =>
      refine ⟨v, rfl, ?_⟩
      simp only [extractBlocks, hp] at h
      by_cases ht : jsTruthy v = true
      · rw [if_pos ht] at h
        cases hb : jsGet v "blocks" with
        | none => rw [hb] at h; simp at h
        | some w =>
          rw [hb] at h
          cases w <;> simp_all
      · simp [ht] at h
  · intro parse s h
    simp [extractBlocks, h]
  · intro cfg O mode prompt reply hb hok
    constructor
    · intro hnone
      simp [doWork, hok, hb, hnone]
    · intro bs hsome
      simp [doWork, hok, hb, hsome]

def wParseGood : String → Option JsVal := fun _ => some (.obj [("blocks", .arr [])])

theorem blocks_fallback_spec_witness :
    (∃ v, wParseGood "x" = some v ∧ jsGet v "blocks" = some (.arr []))
    ∧ extractBlocks wO.parseJson "x" = none
    ∧ doWork wCfg wO (.str "qa_blocks") "p" = ⟨true, some "hi", none⟩ := by
  refine ⟨blocks_fallback_spec.1 wParseGood "x" [] rfl,
    blocks_fallback_spec.2.1 wO.parseJson "x" rfl, ?_⟩
  exact (blocks_fallback_spec.2.2 wCfg wO (.str "qa_blocks") "p" "hi" (by decide) rfl).1 rfl

/-- C10: for every JSON-classified request the prompt is chosen from the
resolved mode, where a truthy `mode` field of the body takes precedence
over the `mode` query parameter; `"qa_blocks"` (or `"qa"` under the
blocks-default flag) selects the structured-reply shape, `"qa"` selects the
question-answering shape, and every other value — including unrecognized
mode strings — silently selects the operational-event shape. -/
theorem mode_resolution_spec (cfg : Config) (O : Oracles) :
    (∀ (req : Req) (parsed : JsVal),
       jsonPrompt cfg O req parsed
         = choosePrompt cfg O parsed req.headers (jsonSaved cfg O parsed)
             (resolveMode parsed req.queryMode) (jsonRequestText cfg O parsed))
    ∧ (∀ (parsed mv : JsVal) (q q' : Option String),
       jsGet parsed "mode" = some mv → jsTruthy mv = true →
       resolveMode parsed q = mv ∧ resolveMode parsed q = resolveMode parsed q')
    ∧ (∀ (parsed : JsVal) (headers : List (String × String)) (saved : List SavedRec)
         (text : String),
       choosePrompt cfg O parsed headers saved (.str "qa_blocks") text
         = buildSlackBlocksPrompt text (jsStrFieldOr parsed "context" "") saved
       ∧ choosePrompt cfg O parsed headers saved (.str "qa") text
         = (if cfg.slackBlocksDefault then
              buildSlackBlocksPrompt text (jsStrFieldOr parsed "context" "") saved
            else buildQAPrompt text (jsStrFieldOr parsed "context" "") saved)
       ∧ (∀ m : JsVal, jsEqStr m "qa_blocks" = false → jsEqStr m "qa" = false →
            choosePrompt cfg O parsed headers saved m text
              = buildOpsPrompt cfg O parsed headers saved text)) := by
  refine ⟨fun req parsed => rfl, ?_, ?_⟩
  · intro parsed mv q q' hget htr
    have hobj : jsTruthy parsed = true := by
      cases parsed <;> simp [jsGet, jsTruthy] at hget ⊢
    have hq : resolveMode parsed q = mv := by
      simp [resolveMode, hobj, hget, htr]
    refine ⟨hq, ?_⟩
    rw [hq]
    simp [resolveMode, hobj, hget, htr]
  · intro parsed headers saved text
    have e1 : jsEqStr (.str "qa_blocks") "qa_blocks" = true := by decide
    have e2 : jsEqStr (.str "qa") "qa_blocks" = false := by decide
    have e3 : jsEqStr (.str "qa") "qa" = true := by decide
    refine ⟨?_, ?_, ?_⟩
    · simp [choosePrompt, isBlocksMode, e1]
    · cases hb : cfg.slackBlocksDefault with
      | true => simp [choosePrompt, isBlocksMode, e2, e3, hb]
      | false => simp [choosePrompt, isBlocksMode, e2, e3, hb]
    · intro m h1 h2
      simp [choosePrompt, isBlocksMode, h1, h2]

def wModeParsed : JsVal := .obj [("mode", .str "qa")]

theorem mode_resolution_spec_witness :
    (resolveMode wModeParsed (some "ops") = .str "qa"
      ∧ resolveMode wModeParsed (some "ops") = resolveMode wModeParsed none)
    ∧ choosePrompt wCfg wO .null [] [] (.str "qa_blocks") "t"
        = buildSlackBlocksPrompt "t" (jsStrFieldOr .null "context" "") []
    ∧ choosePrompt wCfg wO .null [] [] (.str "weird") "t"
        = buildOpsPrompt wCfg wO .null [] [] "t" := by
  refine ⟨(mode_resolution_spec wCfg wO).2.1 wModeParsed (.str "qa") (some "ops") none rfl
      (by decide), ?_, ?_⟩
  · exact ((mode_resolution_spec wCfg wO).2.2 .null [] [] "t").1
  · exact ((mode_resolution_spec wCfg wO).2.2 .null [] [] "t").2.2 (.str "weird")
      (by decide) (by decide)

/-! ### Helper lemma: posts of the async branch -/

theorem asyncCallbackActions_posts (cfg : Config) (O : Oracles) (responseUrl : Option JsVal)
    (r : DoResult) :
    ∀ a ∈ asyncCallbackActions cfg O responseUrl r,
      ∃ u payload, a = DeliveryAction.post u payload ∧ responseUrl = some (.str u) := by
  intro a ha
  cases responseUrl with
  | none => simp [asyncCallbackActions] at ha
  | some v =>
    cases v with
    | null => simp [asyncCallbackActions] at ha
    | bool b => simp [asyncCallbackActions] at ha
    | num n => simp [asyncCallbackActions] at ha
    | arr l => simp [asyncCallbackActions] at ha
    | obj fields => simp [asyncCallbackActions] at ha
    | str u =>
      simp only [asyncCallbackActions] at ha
      cases hh : O.parseUrlHost u with
      | none => rw [hh] at ha; simp at ha
      | some host =>
        simp only [hh] at ha
        by_cases hs : strEndsWith host "slack.com" = true
        · rw [if_pos hs] at ha
          simp only [postSlackActions, postJSONAction, hh, List.mem_singleton] at ha
          exact ⟨u, _, ha, rfl⟩
        · rw [if_neg hs] at ha
          simp only [postJSONAction, hh, List.mem_singleton] at ha
          exact ⟨u, _, ha, rfl⟩

/-- C9: for every request with a resolved callback URL or a forced-async
signal, the original connection receives exactly one response — status 202
with the acceptance body, first in the delivery order — and every later
delivery step is a POST whose target is the resolved callback URL (none
when async was merely forced without a callback URL). -/
theorem async_delivery_spec (cfg : Config) (O : Oracles) (req : Req) (parsed : JsVal)
    (hform : strIncludes (reqContentType req) "application/x-www-form-urlencoded" = false)
    (hclass : classifyBody O.parseJson req = some parsed)
    (hasync : ((resolveResponseUrl parsed).isSome || forceAsyncOf req) = true) :
    ∃ rest, handleEvent cfg O req = DeliveryAction.respond 202 ackBody :: rest
      ∧ (∀ a ∈ rest, ∃ u payload, a = DeliveryAction.post u payload
           ∧ resolveResponseUrl parsed = some (.str u)) := by
  rw [handleEvent_json cfg O req parsed hform hclass, if_pos hasync]
  exact ⟨_, rfl, asyncCallbackActions_posts cfg O _ _⟩

def cReq : Req := ⟨[("content-type", "application/json")], "\x7b\x7d", none, none⟩

def wAsyncParsed : JsVal := .obj [("response_url", .str "http://cb.example/x")]

def wOAsync : Oracles := { wO with
  parseJson := fun _ => some (.obj [("response_url", .str "http://cb.example/x")])
  parseUrlHost := fun s => if s = "http://cb.example/x" then some "cb.example" else none }

theorem async_delivery_spec_witness :
    ∃ rest, handleEvent wCfg wOAsync cReq = DeliveryAction.respond 202 ackBody :: rest
      ∧ (∀ a ∈ rest, ∃ u payload, a = DeliveryAction.post u payload
           ∧ resolveResponseUrl wAsyncParsed = some (.str u)) :=
  async_delivery_spec wCfg wOAsync cReq wAsyncParsed rfl rfl (by decide)

/-- C1 (amended): in the attachment-handling listener every synchronously
handled JSON request — no callback URL resolved from the body, no
forced-async signal — is answered with status 200 whether the reasoning
invocation succeeds or fails, the outcome signalled only by the `ok` flag
of the body; in the simpler `listen.js` variant, however, a synchronous
reasoning failure is answered with status 500. -/
theorem sync_status_decoupled_amended :
    (∀ (cfg : Config) (O : Oracles) (req : Req) (parsed : JsVal),
       strIncludes (reqContentType req) "application/x-www-form-urlencoded" = false →
       classifyBody O.parseJson req = some parsed →
       resolveResponseUrl parsed = none →
       forceAsyncOf req = false →
       handleEvent cfg O req
         = [DeliveryAction.respond 200 (syncBody (jsonResult cfg O req parsed))]
       ∧ ((jsonResult cfg O req parsed).ok = true
           ↔ ∃ out, runGemini cfg O (jsonPrompt cfg O req parsed) = .ok out))
    ∧ (∀ (cfg : Config) (O : OraclesListen) (req : Req) (parsed : JsVal) (msg : String),
       strIncludes (reqContentType req) "application/x-www-form-urlencoded" = false →
       classifyBody O.parseJson req = some parsed →
       resolveResponseUrl parsed = none →
       forceAsyncOf req = false →
       runGeminiListen O (buildOpsPromptListen O parsed req.headers) = .error msg →
       handleEventListen cfg O req
         = [DeliveryAction.respond 500 (.obj [("ok", .bool false), ("error", .str msg)])]) := by
  constructor
  · intro cfg O req parsed hform hclass hnocb hnoasync
    constructor
    · rw [handleEvent_json cfg O req parsed hform hclass, hnocb]
      simp [hnoasync]
    · show (doWork cfg O (resolveMode parsed req.queryMode)
          (jsonPrompt cfg O req parsed)).ok = true ↔ _
      cases hg : runGemini cfg O (jsonPrompt cfg O req parsed) with
      | ok reply =>
        refine ⟨fun _ => ⟨reply, rfl⟩, fun _ => ?_⟩
        simp only [doWork, hg]
        split <;> rfl
      | error msg =>
        simp [doWork, hg]
  · intro cfg O req parsed msg hform hclass hnocb hnoasync hfail
    rw [handleEventListen_json cfg O req parsed hform hclass,
      listenJsonBranch_sync cfg O req parsed hnocb hnoasync, hfail]

def cOL : OraclesListen where
  parseJson := fun _ => some (.obj [])
  parseUrlHost := fun _ => none
  gemini := fun _ => ⟨"", "boom", 1⟩
  bodyParam := fun _ => none
  safeJsonStr := fun _ => "null"

/-- C1 counterexample: a concrete synchronously handled JSON request to the
`listen.js` handler (no callback URL, no forced async, JSON body parsing to
`{}`) whose gemini invocation fails is answered with status 500 — not 200
as the claim states for every synchronously handled request. -/
theorem listen_sync_failure_status500 :
    handleEventListen wCfg cOL cReq
      = [DeliveryAction.respond 500 (.obj [("ok", .bool false), ("error", .str "boom")])]
    ∧ (500 : Nat) ≠ 200 :=
  ⟨rfl, by decide⟩

def wOJson : Oracles := { wO with parseJson := fun _ => some (.obj []) }

theorem sync_status_decoupled_witness :
    (handleEvent wCfg wOJson cReq
       = [DeliveryAction.respond 200 (syncBody (jsonResult wCfg wOJson cReq (JsVal.obj [])))]
     ∧ ((jsonResult wCfg wOJson cReq (JsVal.obj [])).ok = true
         ↔ ∃ out, runGemini wCfg wOJson (jsonPrompt wCfg wOJson cReq (JsVal.obj [])) = .ok out))
    ∧ handleEventListen wCfg cOL cReq
       = [DeliveryAction.respond 500 (.obj [("ok", .bool false), ("error", .str "boom")])] :=
  ⟨sync_status_decoupled_amended.1 wCfg wOJson cReq (JsVal.obj []) rfl rfl rfl rfl,
   sync_status_decoupled_amended.2 wCfg cOL cReq (JsVal.obj []) "boom" rfl rfl rfl rfl rfl⟩

/-- C2 (amended): in the attachment-handling listener every request whose
content type declares JSON but whose body fails to parse is answered with
status 200 and the `{"ok":false,"reply":"❌ Invalid JSON payload."}` body,
never a protocol-level error status; the simpler `listen.js` variant
instead silently wraps the unparsed body as a raw-text event and continues
the pipeline, never sending that invalid-JSON reply. -/
theorem invalid_json_soft_failure_amended :
    (∀ (cfg : Config) (O : Oracles) (req : Req),
       strIncludes (reqContentType req) "application/x-www-form-urlencoded" = false →
       classifyBody O.parseJson req = none →
       handleEvent cfg O req = [DeliveryAction.respond 200 invalidJsonBody])
    ∧ (∀ (cfg : Config) (O : OraclesListen) (req : Req),
       strIncludes (reqContentType req) "application/x-www-form-urlencoded" = false →
       classifyBody O.parseJson req = none →
       handleEventListen cfg O req
         = listenJsonBranch cfg O req (.obj [("raw", .str req.raw)])) :=
  ⟨fun cfg O req hform hclass => handleEvent_badjson cfg O req hform hclass,
   fun cfg O req hform hclass => handleEventListen_badjson cfg O req hform hclass⟩

def cOL2 : OraclesListen where
  parseJson := fun _ => none
  parseUrlHost := fun _ => none
  gemini := fun _ => ⟨" hi ", "", 0⟩
  bodyParam := fun _ => none
  safeJsonStr := fun _ => "null"

/-- C2 counterexample: a concrete request with a JSON content type and an
unparsable body sent to the `listen.js` handler is not answered with the
invalid-JSON reply: the body is wrapped as a raw event, the pipeline
continues, and the response is `{"ok":true,"reply":"hi"}`. -/
theorem listen_invalid_json_no_error_reply :
    handleEventListen wCfg cOL2 cReq
      = [DeliveryAction.respond 200 (.obj [("ok", .bool true), ("reply", .str "hi")])]
    ∧ ¬ (handleEventListen wCfg cOL2 cReq = [DeliveryAction.respond 200 invalidJsonBody]) := by
  constructor
  · rfl
  · intro h
    have h3 : ([DeliveryAction.respond 200
        (JsVal.obj [("ok", JsVal.bool true), ("reply", JsVal.str "hi")])] : List DeliveryAction)
        = [DeliveryAction.respond 200 invalidJsonBody] := by
      rw [← h]
      exact Eq.symm rfl
    simp [invalidJsonBody] at h3

theorem invalid_json_soft_failure_witness :
    handleEvent wCfg wO cReq = [DeliveryAction.respond 200 invalidJsonBody]
    ∧ handleEventListen wCfg cOL2 cReq
        = listenJsonBranch wCfg cOL2 cReq (.obj [("raw", .str cReq.raw)]) :=
  ⟨invalid_json_soft_failure_amended.1 wCfg wO cReq rfl rfl,
   invalid_json_soft_failure_amended.2 wCfg cOL2 cReq rfl rfl⟩
